import Mathlib

/-!
Verification of the iota-sdk native FFI bridge surface
(`src/bindings/native/headers/iota_sdk.h` / `iota_sdk.hpp`).

The repository ships only the two header files: the boundary surface is
declared there, and the behavioural contract (handle lifecycle, method
dispatch, last-error slot, event listener bridge, string transfer) is
given by the specification.  We embed the declared surface of both
headers as data, and model the behavioural contract as an explicit
state-transition system over an abstract native core, proving the
lifecycle, error-handling, ordering and frame properties about it.
-/

namespace IotaFFI

/-! ## Part 1: the declared C surface of the two headers -/

/-- The C types occurring in the boundary surface.  `struct Client *`
(C header) and `Client *` (C++ header, same struct) denote the same
type; `void (*)(const char*)` is the event handler function pointer. -/
inductive CType where
  | bool
  | charPtr
  | constCharPtr
  | clientPtr
  | constClientPtr
  | secretManagerPtr
  | constSecretManagerPtr
  | walletPtr
  | constWalletPtr
  | handlerFnPtr
  deriving DecidableEq, Repr

/-- One declared boundary function: name, parameter types in order,
return type, and whether it has C linkage (in the C header every
declaration implicitly has C linkage; in the C++ header the block
gives every declaration C linkage). -/
structure CFunDecl where
  name : String
  params : List CType
  ret : CType
  cLinkage : Bool
  deriving DecidableEq, Repr

/-- The 16 declarations of `iota_sdk.h`, transcribed in file order. -/
def iota_sdk_h : List CFunDecl :=
  [ ⟨"destroy_string", [.charPtr], .bool, true⟩,
    ⟨"init_logger", [.constCharPtr], .bool, true⟩,
    ⟨"call_utils_method", [.constCharPtr], .constCharPtr, true⟩,
    ⟨"create_client", [.constCharPtr], .constClientPtr, true⟩,
    ⟨"destroy_client", [.clientPtr], .bool, true⟩,
    ⟨"call_client_method", [.clientPtr, .charPtr], .constCharPtr, true⟩,
    ⟨"binding_get_last_error", [], .constCharPtr, true⟩,
    ⟨"create_secret_manager", [.constCharPtr], .constSecretManagerPtr, true⟩,
    ⟨"destroy_secret_manager", [.secretManagerPtr], .bool, true⟩,
    ⟨"call_secret_manager_method", [.secretManagerPtr, .constCharPtr], .constCharPtr, true⟩,
    ⟨"destroy_wallet", [.walletPtr], .bool, true⟩,
    ⟨"create_wallet", [.constCharPtr], .constWalletPtr, true⟩,
    ⟨"call_wallet_method", [.walletPtr, .constCharPtr], .constCharPtr, true⟩,
    ⟨"listen_wallet", [.walletPtr, .constCharPtr, .handlerFnPtr], .bool, true⟩,
    ⟨"get_client_from_wallet", [.walletPtr], .constClientPtr, true⟩,
    ⟨"get_secret_manager_from_wallet", [.walletPtr], .constSecretManagerPtr, true⟩ ]

/-- The 16 declarations of `iota_sdk.hpp`, transcribed in file order
from the C-linkage block. -/
def iota_sdk_hpp : List CFunDecl :=
  [ ⟨"destroy_string", [.charPtr], .bool, true⟩,
    ⟨"init_logger", [.constCharPtr], .bool, true⟩,
    ⟨"call_utils_method", [.constCharPtr], .constCharPtr, true⟩,
    ⟨"create_client", [.constCharPtr], .constClientPtr, true⟩,
    ⟨"destroy_client", [.clientPtr], .bool, true⟩,
    ⟨"call_client_method", [.clientPtr, .charPtr], .constCharPtr, true⟩,
    ⟨"binding_get_last_error", [], .constCharPtr, true⟩,
    ⟨"create_secret_manager", [.constCharPtr], .constSecretManagerPtr, true⟩,
    ⟨"destroy_secret_manager", [.secretManagerPtr], .bool, true⟩,
    ⟨"call_secret_manager_method", [.secretManagerPtr, .constCharPtr], .constCharPtr, true⟩,
    ⟨"destroy_wallet", [.walletPtr], .bool, true⟩,
    ⟨"create_wallet", [.constCharPtr], .constWalletPtr, true⟩,
    ⟨"call_wallet_method", [.walletPtr, .constCharPtr], .constCharPtr, true⟩,
    ⟨"listen_wallet", [.walletPtr, .constCharPtr, .handlerFnPtr], .bool, true⟩,
    ⟨"get_client_from_wallet", [.walletPtr], .constClientPtr, true⟩,
    ⟨"get_secret_manager_from_wallet", [.walletPtr], .constSecretManagerPtr, true⟩ ]

/-- C10: the C header and the C++ header declare exactly the same
boundary surface: the same 16 functions, pairwise matching in name,
parameter types, return type and C linkage, so the two declared
interfaces are equivalent descriptions of one ABI. -/
theorem header_surfaces_equal :
    iota_sdk_h = iota_sdk_hpp ∧
    iota_sdk_h.length = 16 ∧
    iota_sdk_h.all (fun d => d.cLinkage) = true := by
  refine ⟨rfl, rfl, rfl⟩

/-! ## Part 2: the behavioural contract, as a state-transition system

The implementation behind the headers is not part of the shipped
sources; the behavioural contract is modelled from the specification.
The native core (ledger logic, method execution, filter parsing,
event matching) is an opaque black box, represented by an oracle
structure `Core`; the bridge layer (handle table, last-error slot,
listener registry, delivery queues) is the explicit `BridgeState`,
and every boundary call is a step of `step`.  A caller-contract
violation (use after destroy, double destroy, destroying a borrowed
handle, dispatch on an invalid handle) has no step: such an action is
simply not available, so every valid trace is violation-free. -/

/-- Association-list lookup by numeric key (first hit). -/
def assocFind {α : Type} (l : List (Nat × α)) (h : Nat) : Option α :=
  match l with
  | [] => none
  | (k, v) :: t => if k = h then some v else assocFind t h

/-- Remove every entry with the given key. -/
def assocErase {α : Type} (l : List (Nat × α)) (h : Nat) : List (Nat × α) :=
  match l with
  | [] => []
  | (k, v) :: t => if k = h then assocErase t h else (k, v) :: assocErase t h

/-- Apply `f` to the value of every entry with the given key. -/
def assocUpdate {α : Type} (l : List (Nat × α)) (h : Nat) (f : α → α) :
    List (Nat × α) :=
  match l with
  | [] => []
  | (k, v) :: t =>
    if k = h then (k, f v) :: assocUpdate t h f else (k, v) :: assocUpdate t h f

/-- The keys of an association list. -/
def keysOf {α : Type} (l : List (Nat × α)) : List Nat := l.map (·.1)

theorem assocFind_eq_none_iff {α : Type} (l : List (Nat × α)) (k : Nat) :
    assocFind l k = none ↔ k ∉ keysOf l := by
  induction l with
  | nil => simp [assocFind, keysOf]
  | cons p t ih =>
    obtain ⟨k', v⟩ := p
    simp only [assocFind, keysOf, List.map_cons, List.mem_cons]
    split
    · simp_all
    · simp_all [keysOf, eq_comm]

theorem assocFind_mem_keys {α : Type} {l : List (Nat × α)} {k : Nat} {v : α}
    (h : assocFind l k = some v) : k ∈ keysOf l := by
  by_contra hk
  rw [← assocFind_eq_none_iff] at hk
  simp [hk] at h

theorem assocFind_erase {α : Type} (l : List (Nat × α)) (h k : Nat) :
    assocFind (assocErase l h) k = if k = h then none else assocFind l k := by
  induction l with
  | nil => simp [assocErase, assocFind]
  | cons p t ih =>
    obtain ⟨k', v⟩ := p
    simp only [assocErase, assocFind]
    by_cases h1 : k' = h
    · simp only [if_pos h1, ih]
      by_cases h2 : k = h
      · simp [h2]
      · simp only [if_neg h2, assocFind]
        have : ¬ k' = k := by omega
        simp [this]
    · simp only [if_neg h1, assocFind]
      by_cases h2 : k' = k
      · have : ¬ k = h := by omega
        simp [h2, this]
      · simp [h2, ih]

theorem assocFind_update {α : Type} (l : List (Nat × α)) (h k : Nat) (f : α → α) :
    assocFind (assocUpdate l h f) k =
      if k = h then (assocFind l k).map f else assocFind l k := by
  induction l with
  | nil => simp [assocUpdate, assocFind]
  | cons p t ih =>
    obtain ⟨k', v⟩ := p
    by_cases h1 : k' = h
    · subst h1
      by_cases h2 : k' = k
      · subst h2
        simp [assocUpdate, assocFind]
      · simp [assocUpdate, assocFind, h2, Ne.symm h2, ih]
    · by_cases h2 : k' = k
      · subst h2
        simp [assocUpdate, assocFind, h1, Ne.symm h1]
      · simp [assocUpdate, assocFind, h1, h2, ih]

theorem assocErase_sublist {α : Type} (l : List (Nat × α)) (h : Nat) :
    List.Sublist (assocErase l h) l := by
  induction l with
  | nil => simp [assocErase]
  | cons p t ih =>
    obtain ⟨k', v⟩ := p
    simp only [assocErase]
    split
    · exact ih.cons _
    · exact ih.cons₂ _

theorem keysOf_erase_sublist {α : Type} (l : List (Nat × α)) (h : Nat) :
    List.Sublist (keysOf (assocErase l h)) (keysOf l) :=
  (assocErase_sublist l h).map _

theorem keysOf_update {α : Type} (l : List (Nat × α)) (h : Nat) (f : α → α) :
    keysOf (assocUpdate l h f) = keysOf l := by
  induction l with
  | nil => rfl
  | cons p t ih =>
    obtain ⟨k', v⟩ := p
    simp only [assocUpdate]
    split <;> simpa [keysOf] using ih

/-- Modelled from the spec: the native core behind the bridge
(missing from the shipped sources; only the boundary declarations are
in the headers).  Construction of each object kind either succeeds
with an initial internal state (a `Nat` abstracting the opaque native
object state) or fails with a diagnostic message; method dispatch
interprets the serialized method descriptor entirely inside the core
and either returns a serialized result together with the successor
internal state or fails with a diagnostic; `filterCheck` validates an
event-filter string at registration; `matchesEv` decides whether an
emitted event payload matches a registered filter. -/
structure Core where
  clientCreate : String → Except String Nat
  smCreate : String → Except String Nat
  walletCreate : String → Except String (Nat × Nat × Nat)
  clientDispatch : Nat → String → Except String (String × Nat)
  smDispatch : Nat → String → Except String (String × Nat)
  walletDispatch : Nat → String → Except String (String × Nat)
  filterCheck : String → Except String Unit
  matchesEv : String → String → Bool

/-- Diagnostic messages produced by the core are non-empty, as the
spec requires of every Last-Error text. -/
structure CoreWF (C : Core) : Prop where
  clientCreateErr : ∀ cfg e, C.clientCreate cfg = .error e → e ≠ ""
  smCreateErr : ∀ cfg e, C.smCreate cfg = .error e → e ≠ ""
  walletCreateErr : ∀ cfg e, C.walletCreate cfg = .error e → e ≠ ""
  clientDispatchErr : ∀ st m e, C.clientDispatch st m = .error e → e ≠ ""
  smDispatchErr : ∀ st m e, C.smDispatch st m = .error e → e ≠ ""
  walletDispatchErr : ∀ st m e, C.walletDispatch st m = .error e → e ≠ ""
  filterCheckErr : ∀ f e, C.filterCheck f = .error e → e ≠ ""

/-- Who may destroy a Client or SecretManager handle: an externally
created handle is destroyed by the caller; a wallet-owned one is
borrowed when exposed and destroyed only with its owning Wallet. -/
inductive Owner where
  | external
  | wallet (w : Nat)
  deriving DecidableEq, Repr

/-- A live Client object: opaque core state plus its owner. -/
structure ClientObj where
  core : Nat
  owner : Owner
  deriving DecidableEq, Repr

/-- A live SecretManager object: opaque core state plus its owner. -/
structure SMObj where
  core : Nat
  owner : Owner
  deriving DecidableEq, Repr

/-- An event listener registered on a Wallet: the filter string and
the foreign callback (identified by an address token). -/
structure Listener where
  filter : String
  cb : Nat
  deriving DecidableEq, Repr

/-- A live Wallet object: opaque core state, the ids of its owned
Client and SecretManager, its registered listeners, and the FIFO
queue of matched-but-not-yet-delivered event notifications
(callback, payload). -/
structure WalletObj where
  core : Nat
  clientId : Nat
  smId : Nat
  listeners : List Listener
  pending : List (Nat × String)
  deriving DecidableEq, Repr

/-- Modelled from the spec: the bridge-side state.  `nextId` is the
fresh-handle counter (handles are never reused), the three tables
hold the live objects of each kind, `destroyed` records every handle
id ever consumed by a `destroy_*`, and `lastError` is the Last-Error
Slot. -/
structure BridgeState where
  nextId : Nat
  clients : List (Nat × ClientObj)
  sms : List (Nat × SMObj)
  wallets : List (Nat × WalletObj)
  destroyed : List Nat
  lastError : Option String
  deriving DecidableEq, Repr

/-- The process-start bridge state: no objects, empty error slot. -/
def initState : BridgeState := ⟨0, [], [], [], [], none⟩

/-- One observable action at the boundary.  The `destroy_*` actions
take an `Option Nat` because passing a null handle is defined
behaviour (return `false`); every other handle argument must be an
actual handle value.  `emit_event` is the native side emitting an
event for a Wallet, and `deliver_event` is the asynchronous delivery
of the front of a Wallet's queue into its foreign callback. -/
inductive Action where
  | create_client (cfg : String)
  | destroy_client (h : Option Nat)
  | call_client_method (h : Nat) (m : String)
  | create_secret_manager (cfg : String)
  | destroy_secret_manager (h : Option Nat)
  | call_secret_manager_method (h : Nat) (m : String)
  | create_wallet (cfg : String)
  | destroy_wallet (h : Option Nat)
  | call_wallet_method (h : Nat) (m : String)
  | listen_wallet (h : Nat) (events : String) (cb : Nat)
  | get_client_from_wallet (h : Nat)
  | get_secret_manager_from_wallet (h : Nat)
  | emit_event (h : Nat) (payload : String)
  | deliver_event (h : Nat)
  | binding_get_last_error
  deriving DecidableEq, Repr

/-- The value returned across the boundary by one action. -/
inductive Outcome where
  | handle (h : Option Nat)
  | flag (b : Bool)
  | str (s : Option String)
  | invoke (cb : Nat) (payload : String)
  | unit
  deriving DecidableEq, Repr

/-- The queue entries an emitted payload adds for a listener set:
one `(callback, payload)` entry per listener whose filter matches,
in listener-registration order. -/
def matchedDeliveries (C : Core) (ls : List Listener) (payload : String) :
    List (Nat × String) :=
  (ls.filter (fun l => C.matchesEv l.filter payload)).map (fun l => (l.cb, payload))

/-- Modelled from the spec: one boundary call as a state transition.
`none` means the action is a caller-contract violation (use after
destroy, double destroy, destroying a borrowed handle, any call on an
invalid handle, delivering from an empty queue): such an action has
no defined behaviour and is unavailable in a valid trace.  Every
failing defined call overwrites the Last-Error Slot; no successful
call touches it; reading it does not clear it. -/
def step (C : Core) (s : BridgeState) : Action → Option (BridgeState × Outcome)
  | .create_client cfg =>
    match C.clientCreate cfg with
    | .ok st =>
      some ({ s with
                nextId := s.nextId + 1,
                clients := (s.nextId, ⟨st, .external⟩) :: s.clients },
            .handle (some s.nextId))
    | .error e => some ({ s with lastError := some e }, .handle none)
  | .destroy_client h =>
    match h with
    | none => some ({ s with lastError := some "null handle" }, .flag false)
    | some h =>
      match assocFind s.clients h with
      | none => none
      | some obj =>
        match obj.owner with
        | .external =>
          some ({ s with
                    clients := assocErase s.clients h,
                    destroyed := h :: s.destroyed }, .flag true)
        | .wallet _ => none
  | .call_client_method h m =>
    match assocFind s.clients h with
    | none => none
    | some obj =>
      match C.clientDispatch obj.core m with
      | .ok (res, st) =>
        some ({ s with clients :=
                assocUpdate s.clients h (fun o => { o with core := st }) },
              .str (some res))
      | .error e => some ({ s with lastError := some e }, .str none)
  | .create_secret_manager cfg =>
    match C.smCreate cfg with
    | .ok st =>
      some ({ s with
                nextId := s.nextId + 1,
                sms := (s.nextId, ⟨st, .external⟩) :: s.sms },
            .handle (some s.nextId))
    | .error e => some ({ s with lastError := some e }, .handle none)
  | .destroy_secret_manager h =>
    match h with
    | none => some ({ s with lastError := some "null handle" }, .flag false)
    | some h =>
      match assocFind s.sms h with
      | none => none
      | some obj =>
        match obj.owner with
        | .external =>
          some ({ s with
                    sms := assocErase s.sms h,
                    destroyed := h :: s.destroyed }, .flag true)
        | .wallet _ => none
  | .call_secret_manager_method h m =>
    match assocFind s.sms h with
    | none => none
    | some obj =>
      match C.smDispatch obj.core m with
      | .ok (res, st) =>
        some ({ s with sms :=
                assocUpdate s.sms h (fun o => { o with core := st }) },
              .str (some res))
      | .error e => some ({ s with lastError := some e }, .str none)
  | .create_wallet cfg =>
    match C.walletCreate cfg with
    | .ok (wst, cst, mst) =>
      some ({ s with
                nextId := s.nextId + 3,
                clients := (s.nextId + 1, ⟨cst, .wallet s.nextId⟩) :: s.clients,
                sms := (s.nextId + 2, ⟨mst, .wallet s.nextId⟩) :: s.sms,
                wallets :=
                  (s.nextId, ⟨wst, s.nextId + 1, s.nextId + 2, [], []⟩) ::
                    s.wallets },
            .handle (some s.nextId))
    | .error e => some ({ s with lastError := some e }, .handle none)
  | .destroy_wallet h =>
    match h with
    | none => some ({ s with lastError := some "null handle" }, .flag false)
    | some h =>
      match assocFind s.wallets h with
      | none => none
      | some obj =>
        some ({ s with
                  wallets := assocErase s.wallets h,
                  clients := assocErase s.clients obj.clientId,
                  sms := assocErase s.sms obj.smId,
                  destroyed := h :: obj.clientId :: obj.smId :: s.destroyed },
              .flag true)
  | .call_wallet_method h m =>
    match assocFind s.wallets h with
    | none => none
    | some obj =>
      match C.walletDispatch obj.core m with
      | .ok (res, st) =>
        some ({ s with wallets :=
                assocUpdate s.wallets h (fun o => { o with core := st }) },
              .str (some res))
      | .error e => some ({ s with lastError := some e }, .str none)
  | .listen_wallet h events cb =>
    match assocFind s.wallets h with
    | none => none
    | some _ =>
      match C.filterCheck events with
      | .ok _ =>
        some ({ s with
                  wallets := assocUpdate s.wallets h
                    (fun o =>
                      { o with listeners := o.listeners ++ [⟨events, cb⟩] }) },
              .flag true)
      | .error e => some ({ s with lastError := some e }, .flag false)
  | .get_client_from_wallet h =>
    match assocFind s.wallets h with
    | none => none
    | some obj => some (s, .handle (some obj.clientId))
  | .get_secret_manager_from_wallet h =>
    match assocFind s.wallets h with
    | none => none
    | some obj => some (s, .handle (some obj.smId))
  | .emit_event h payload =>
    match assocFind s.wallets h with
    | none => none
    | some _ =>
      some ({ s with
                wallets := assocUpdate s.wallets h
                  (fun o =>
                    { o with pending :=
                        o.pending ++ matchedDeliveries C o.listeners payload }) },
            .unit)
  | .deliver_event h =>
    match assocFind s.wallets h with
    | none => none
    | some obj =>
      match obj.pending with
      | [] => none
      | (cb, payload) :: rest =>
        some ({ s with
                  wallets := assocUpdate s.wallets h
                    (fun o => { o with pending := rest }) },
              .invoke cb payload)
  | .binding_get_last_error => some (s, .str s.lastError)

/-- Run a list of actions from a state, recording each action with
its outcome; `none` as soon as any action is a contract violation. -/
def run (C : Core) (s : BridgeState) :
    List Action → Option (BridgeState × List (Action × Outcome))
  | [] => some (s, [])
  | a :: as =>
    match step C s a with
    | none => none
    | some (s', o) =>
      match run C s' as with
      | none => none
      | some (s'', t) => some (s'', (a, o) :: t)

/-! ### The bridge-state invariant -/

/-- The bridge-state invariant: every key of the three handle tables
and every destroyed id is below the fresh counter, the three tables
have pairwise disjoint keys, destroyed ids are dead in every table,
and every live wallet's owned Client and SecretManager are live
entries marked as owned by that wallet. -/
structure WF (s : BridgeState) : Prop where
  clientsB : ∀ k ∈ keysOf s.clients, k < s.nextId
  smsB : ∀ k ∈ keysOf s.sms, k < s.nextId
  walletsB : ∀ k ∈ keysOf s.wallets, k < s.nextId
  destroyedB : ∀ k ∈ s.destroyed, k < s.nextId
  disjCS : ∀ k ∈ keysOf s.clients, k ∉ keysOf s.sms
  disjCW : ∀ k ∈ keysOf s.clients, k ∉ keysOf s.wallets
  disjSW : ∀ k ∈ keysOf s.sms, k ∉ keysOf s.wallets
  deadC : ∀ k ∈ s.destroyed, assocFind s.clients k = none
  deadS : ∀ k ∈ s.destroyed, assocFind s.sms k = none
  deadW : ∀ k ∈ s.destroyed, assocFind s.wallets k = none
  ownedC : ∀ w obj, assocFind s.wallets w = some obj →
    ∃ co, assocFind s.clients obj.clientId = some co ∧ co.owner = .wallet w
  ownedS : ∀ w obj, assocFind s.wallets w = some obj →
    ∃ so, assocFind s.sms obj.smId = some so ∧ so.owner = .wallet w

theorem initState_WF : WF initState := by
  constructor <;> simp [initState, keysOf, assocFind]

theorem wf_set_lastError {s : BridgeState} (w : WF s) (e : Option String) :
    WF { s with lastError := e } :=
  ⟨w.clientsB, w.smsB, w.walletsB, w.destroyedB, w.disjCS, w.disjCW, w.disjSW,
   w.deadC, w.deadS, w.deadW, w.ownedC, w.ownedS⟩

theorem wf_update_clients {s : BridgeState} (w : WF s) (h : Nat)
    (f : ClientObj → ClientObj) (hf : ∀ o, (f o).owner = o.owner) :
    WF { s with clients := assocUpdate s.clients h f } := by
  refine ⟨?_, w.smsB, w.walletsB, w.destroyedB, ?_, ?_, w.disjSW, ?_,
          w.deadS, w.deadW, ?_, w.ownedS⟩
  · intro k hk
    exact w.clientsB k (by simpa [keysOf_update] using hk)
  · intro k hk
    exact w.disjCS k (by simpa [keysOf_update] using hk)
  · intro k hk
    exact w.disjCW k (by simpa [keysOf_update] using hk)
  · intro k hk
    simp only [assocFind_update, w.deadC k hk]
    split <;> simp
  · intro wi obj hw
    obtain ⟨co, hco, hoco⟩ := w.ownedC wi obj hw
    refine ⟨if obj.clientId = h then f co else co, ?_, ?_⟩
    · simp only [assocFind_update, hco]
      split <;> simp
    · split <;> simp [hf, hoco]

theorem wf_update_sms {s : BridgeState} (w : WF s) (h : Nat)
    (f : SMObj → SMObj) (hf : ∀ o, (f o).owner = o.owner) :
    WF { s with sms := assocUpdate s.sms h f } := by
  refine ⟨w.clientsB, ?_, w.walletsB, w.destroyedB, ?_, w.disjCW, ?_,
          w.deadC, ?_, w.deadW, w.ownedC, ?_⟩
  · intro k hk
    exact w.smsB k (by simpa [keysOf_update] using hk)
  · intro k hk hks
    exact w.disjCS k hk (by simpa [keysOf_update] using hks)
  · intro k hk
    exact w.disjSW k (by simpa [keysOf_update] using hk)
  · intro k hk
    simp only [assocFind_update, w.deadS k hk]
    split <;> simp
  · intro wi obj hw
    obtain ⟨so, hso, hoso⟩ := w.ownedS wi obj hw
    refine ⟨if obj.smId = h then f so else so, ?_, ?_⟩
    · simp only [assocFind_update, hso]
      split <;> simp
    · split <;> simp [hf, hoso]

theorem wf_update_wallets {s : BridgeState} (w : WF s) (h : Nat)
    (f : WalletObj → WalletObj)
    (hfc : ∀ o, (f o).clientId = o.clientId)
    (hfs : ∀ o, (f o).smId = o.smId) :
    WF { s with wallets := assocUpdate s.wallets h f } := by
  refine ⟨w.clientsB, w.smsB, ?_, w.destroyedB, w.disjCS, ?_, ?_,
          w.deadC, w.deadS, ?_, ?_, ?_⟩
  · intro k hk
    exact w.walletsB k (by simpa [keysOf_update] using hk)
  · intro k hk hkw
    exact w.disjCW k hk (by simpa [keysOf_update] using hkw)
  · intro k hk hkw
    exact w.disjSW k hk (by simpa [keysOf_update] using hkw)
  · intro k hk
    simp only [assocFind_update, w.deadW k hk]
    split <;> simp
  · intro wi obj hw
    simp only [assocFind_update] at hw
    by_cases hwh : wi = h
    · simp only [if_pos hwh] at hw
      cases hq : assocFind s.wallets wi with
      | none => simp [hq] at hw
      | some obj0 =>
        simp [hq] at hw
        obtain ⟨co, hco, hoco⟩ := w.ownedC wi obj0 hq
        exact ⟨co, by rw [← hw, hfc]; exact hco, hoco⟩
    · simp only [if_neg hwh] at hw
      exact w.ownedC wi obj hw
  · intro wi obj hw
    simp only [assocFind_update] at hw
    by_cases hwh : wi = h
    · simp only [if_pos hwh] at hw
      cases hq : assocFind s.wallets wi with
      | none => simp [hq] at hw
      | some obj0 =>
        simp [hq] at hw
        obtain ⟨so, hso, hoso⟩ := w.ownedS wi obj0 hq
        exact ⟨so, by rw [← hw, hfs]; exact hso, hoso⟩
    · simp only [if_neg hwh] at hw
      exact w.ownedS wi obj hw

theorem assocFind_cons {α : Type} (k0 : Nat) (v0 : α) (l : List (Nat × α))
    (k : Nat) :
    assocFind ((k0, v0) :: l) k = if k0 = k then some v0 else assocFind l k :=
  rfl

theorem keysOf_cons {α : Type} (k0 : Nat) (v0 : α) (l : List (Nat × α)) :
    keysOf ((k0, v0) :: l) = k0 :: keysOf l := rfl

theorem wf_create_client {s : BridgeState} (w : WF s) (obj : ClientObj) :
    WF { s with
          nextId := s.nextId + 1,
          clients := (s.nextId, obj) :: s.clients } := by
  refine ⟨?_, ?_, ?_, ?_, ?_, ?_, w.disjSW, ?_, w.deadS, w.deadW, ?_, w.ownedS⟩
  · intro k hk
    replace hk : k ∈ s.nextId :: keysOf s.clients := hk
    show k < s.nextId + 1
    rcases List.mem_cons.mp hk with rfl | hk
    · omega
    · have := w.clientsB k hk
      omega
  · intro k hk
    replace hk : k ∈ keysOf s.sms := hk
    show k < s.nextId + 1
    have := w.smsB k hk
    omega
  · intro k hk
    replace hk : k ∈ keysOf s.wallets := hk
    show k < s.nextId + 1
    have := w.walletsB k hk
    omega
  · intro k hk
    replace hk : k ∈ s.destroyed := hk
    show k < s.nextId + 1
    have := w.destroyedB k hk
    omega
  · intro k hk
    replace hk : k ∈ s.nextId :: keysOf s.clients := hk
    show k ∉ keysOf s.sms
    rcases List.mem_cons.mp hk with rfl | hk
    · intro hmem
      have := w.smsB _ hmem
      omega
    · exact w.disjCS k hk
  · intro k hk
    replace hk : k ∈ s.nextId :: keysOf s.clients := hk
    show k ∉ keysOf s.wallets
    rcases List.mem_cons.mp hk with rfl | hk
    · intro hmem
      have := w.walletsB _ hmem
      omega
    · exact w.disjCW k hk
  · intro k hk
    replace hk : k ∈ s.destroyed := hk
    have hlt := w.destroyedB k hk
    have hne : ¬ s.nextId = k := by omega
    simp [assocFind_cons, hne, w.deadC k hk]
  · intro wi wobj hw
    replace hw : assocFind s.wallets wi = some wobj := hw
    obtain ⟨co, hco, hoco⟩ := w.ownedC wi wobj hw
    have hb := w.clientsB _ (assocFind_mem_keys hco)
    have hne : ¬ s.nextId = wobj.clientId := by omega
    exact ⟨co, by simp [assocFind_cons, hne, hco], hoco⟩

theorem wf_create_sm {s : BridgeState} (w : WF s) (obj : SMObj) :
    WF { s with
          nextId := s.nextId + 1,
          sms := (s.nextId, obj) :: s.sms } := by
  refine ⟨?_, ?_, ?_, ?_, ?_, w.disjCW, ?_, w.deadC, ?_, w.deadW, w.ownedC, ?_⟩
  · intro k hk
    replace hk : k ∈ keysOf s.clients := hk
    show k < s.nextId + 1
    have := w.clientsB k hk
    omega
  · intro k hk
    replace hk : k ∈ s.nextId :: keysOf s.sms := hk
    show k < s.nextId + 1
    rcases List.mem_cons.mp hk with rfl | hk
    · omega
    · have := w.smsB k hk
      omega
  · intro k hk
    replace hk : k ∈ keysOf s.wallets := hk
    show k < s.nextId + 1
    have := w.walletsB k hk
    omega
  · intro k hk
    replace hk : k ∈ s.destroyed := hk
    show k < s.nextId + 1
    have := w.destroyedB k hk
    omega
  · intro k hk
    replace hk : k ∈ keysOf s.clients := hk
    show k ∉ s.nextId :: keysOf s.sms
    intro hmem
    rcases List.mem_cons.mp hmem with heq | hmem
    · have := w.clientsB k hk
      omega
    · exact w.disjCS k hk hmem
  · intro k hk
    replace hk : k ∈ s.nextId :: keysOf s.sms := hk
    show k ∉ keysOf s.wallets
    rcases List.mem_cons.mp hk with rfl | hk
    · intro hmem
      have := w.walletsB _ hmem
      omega
    · exact w.disjSW k hk
  · intro k hk
    replace hk : k ∈ s.destroyed := hk
    have hlt := w.destroyedB k hk
    have hne : ¬ s.nextId = k := by omega
    simp [assocFind_cons, hne, w.deadS k hk]
  · intro wi wobj hw
    replace hw : assocFind s.wallets wi = some wobj := hw
    obtain ⟨so, hso, hoso⟩ := w.ownedS wi wobj hw
    have hb := w.smsB _ (assocFind_mem_keys hso)
    have hne : ¬ s.nextId = wobj.smId := by omega
    exact ⟨so, by simp [assocFind_cons, hne, hso], hoso⟩

theorem wf_create_wallet {s : BridgeState} (w : WF s) (wst cst mst : Nat) :
    WF { s with
          nextId := s.nextId + 3,
          clients := (s.nextId + 1, ⟨cst, .wallet s.nextId⟩) :: s.clients,
          sms := (s.nextId + 2, ⟨mst, .wallet s.nextId⟩) :: s.sms,
          wallets :=
            (s.nextId, ⟨wst, s.nextId + 1, s.nextId + 2, [], []⟩) ::
              s.wallets } := by
  refine ⟨?_, ?_, ?_, ?_, ?_, ?_, ?_, ?_, ?_, ?_, ?_, ?_⟩
  · intro k hk
    replace hk : k ∈ (s.nextId + 1) :: keysOf s.clients := hk
    show k < s.nextId + 3
    rcases List.mem_cons.mp hk with rfl | hk
    · omega
    · have := w.clientsB k hk
      omega
  · intro k hk
    replace hk : k ∈ (s.nextId + 2) :: keysOf s.sms := hk
    show k < s.nextId + 3
    rcases List.mem_cons.mp hk with rfl | hk
    · omega
    · have := w.smsB k hk
      omega
  · intro k hk
    replace hk : k ∈ s.nextId :: keysOf s.wallets := hk
    show k < s.nextId + 3
    rcases List.mem_cons.mp hk with rfl | hk
    · omega
    · have := w.walletsB k hk
      omega
  · intro k hk
    replace hk : k ∈ s.destroyed := hk
    show k < s.nextId + 3
    have := w.destroyedB k hk
    omega
  · intro k hk
    replace hk : k ∈ (s.nextId + 1) :: keysOf s.clients := hk
    show k ∉ (s.nextId + 2) :: keysOf s.sms
    intro hmem
    rcases List.mem_cons.mp hk with rfl | hk <;>
      rcases List.mem_cons.mp hmem with heq | hmem
    · omega
    · have := w.smsB _ hmem
      omega
    · have := w.clientsB _ hk
      omega
    · exact w.disjCS k hk hmem
  · intro k hk
    replace hk : k ∈ (s.nextId + 1) :: keysOf s.clients := hk
    show k ∉ s.nextId :: keysOf s.wallets
    intro hmem
    rcases List.mem_cons.mp hk with rfl | hk <;>
      rcases List.mem_cons.mp hmem with heq | hmem
    · omega
    · have := w.walletsB _ hmem
      omega
    · have := w.clientsB _ hk
      omega
    · exact w.disjCW k hk hmem
  · intro k hk
    replace hk : k ∈ (s.nextId + 2) :: keysOf s.sms := hk
    show k ∉ s.nextId :: keysOf s.wallets
    intro hmem
    rcases List.mem_cons.mp hk with rfl | hk <;>
      rcases List.mem_cons.mp hmem with heq | hmem
    · omega
    · have := w.walletsB _ hmem
      omega
    · have := w.smsB _ hk
      omega
    · exact w.disjSW k hk hmem
  · intro k hk
    replace hk : k ∈ s.destroyed := hk
    have hlt := w.destroyedB k hk
    have hne : ¬ s.nextId + 1 = k := by omega
    simp [assocFind_cons, hne, w.deadC k hk]
  · intro k hk
    replace hk : k ∈ s.destroyed := hk
    have hlt := w.destroyedB k hk
    have hne : ¬ s.nextId + 2 = k := by omega
    simp [assocFind_cons, hne, w.deadS k hk]
  · intro k hk
    replace hk : k ∈ s.destroyed := hk
    have hlt := w.destroyedB k hk
    have hne : ¬ s.nextId = k := by omega
    simp [assocFind_cons, hne, w.deadW k hk]
  · intro wi wobj hw
    replace hw :
        assocFind ((s.nextId,
          (⟨wst, s.nextId + 1, s.nextId + 2, [], []⟩ : WalletObj)) ::
            s.wallets) wi = some wobj := hw
    rw [assocFind_cons] at hw
    by_cases hwn : s.nextId = wi
    · rw [if_pos hwn] at hw
      cases hw
      refine ⟨⟨cst, .wallet s.nextId⟩, ?_, by rw [hwn]⟩
      show assocFind ((s.nextId + 1,
        (⟨cst, .wallet s.nextId⟩ : ClientObj)) :: s.clients) (s.nextId + 1) =
          some ⟨cst, .wallet s.nextId⟩
      rw [assocFind_cons, if_pos rfl]
    · rw [if_neg hwn] at hw
      obtain ⟨co, hco, hoco⟩ := w.ownedC wi wobj hw
      have hb := w.clientsB _ (assocFind_mem_keys hco)
      have hne : ¬ s.nextId + 1 = wobj.clientId := by omega
      exact ⟨co, by simp [assocFind_cons, hne, hco], hoco⟩
  · intro wi wobj hw
    replace hw :
        assocFind ((s.nextId,
          (⟨wst, s.nextId + 1, s.nextId + 2, [], []⟩ : WalletObj)) ::
            s.wallets) wi = some wobj := hw
    rw [assocFind_cons] at hw
    by_cases hwn : s.nextId = wi
    · rw [if_pos hwn] at hw
      cases hw
      refine ⟨⟨mst, .wallet s.nextId⟩, ?_, by rw [hwn]⟩
      show assocFind ((s.nextId + 2,
        (⟨mst, .wallet s.nextId⟩ : SMObj)) :: s.sms) (s.nextId + 2) =
          some ⟨mst, .wallet s.nextId⟩
      rw [assocFind_cons, if_pos rfl]
    · rw [if_neg hwn] at hw
      obtain ⟨so, hso, hoso⟩ := w.ownedS wi wobj hw
      have hb := w.smsB _ (assocFind_mem_keys hso)
      have hne : ¬ s.nextId + 2 = wobj.smId := by omega
      exact ⟨so, by simp [assocFind_cons, hne, hso], hoso⟩

theorem wf_destroy_client {s : BridgeState} (w : WF s) {h : Nat}
    {obj : ClientObj} (hfind : assocFind s.clients h = some obj)
    (hown : obj.owner = .external) :
    WF { s with
          clients := assocErase s.clients h,
          destroyed := h :: s.destroyed } := by
  refine ⟨?_, w.smsB, w.walletsB, ?_, ?_, ?_, w.disjSW, ?_, ?_, ?_, ?_, w.ownedS⟩
  · intro k hk
    replace hk : k ∈ keysOf (assocErase s.clients h) := hk
    exact w.clientsB k ((keysOf_erase_sublist s.clients h).subset hk)
  · intro k hk
    replace hk : k ∈ h :: s.destroyed := hk
    rcases List.mem_cons.mp hk with heq | hk
    · subst heq
      exact w.clientsB k (assocFind_mem_keys hfind)
    · exact w.destroyedB k hk
  · intro k hk
    replace hk : k ∈ keysOf (assocErase s.clients h) := hk
    exact w.disjCS k ((keysOf_erase_sublist s.clients h).subset hk)
  · intro k hk
    replace hk : k ∈ keysOf (assocErase s.clients h) := hk
    exact w.disjCW k ((keysOf_erase_sublist s.clients h).subset hk)
  · intro k hk
    replace hk : k ∈ h :: s.destroyed := hk
    show assocFind (assocErase s.clients h) k = none
    rw [assocFind_erase]
    rcases List.mem_cons.mp hk with heq | hk
    · simp [heq]
    · by_cases hkh : k = h
      · simp [hkh]
      · simp [hkh, w.deadC k hk]
  · intro k hk
    replace hk : k ∈ h :: s.destroyed := hk
    rcases List.mem_cons.mp hk with heq | hk
    · subst heq
      have hkc : k ∈ keysOf s.clients := assocFind_mem_keys hfind
      exact (assocFind_eq_none_iff s.sms k).mpr (w.disjCS k hkc)
    · exact w.deadS k hk
  · intro k hk
    replace hk : k ∈ h :: s.destroyed := hk
    rcases List.mem_cons.mp hk with heq | hk
    · subst heq
      have hkc : k ∈ keysOf s.clients := assocFind_mem_keys hfind
      exact (assocFind_eq_none_iff s.wallets k).mpr (w.disjCW k hkc)
    · exact w.deadW k hk
  · intro wi wobj hw
    replace hw : assocFind s.wallets wi = some wobj := hw
    obtain ⟨co, hco, hoco⟩ := w.ownedC wi wobj hw
    have hne : wobj.clientId ≠ h := by
      intro heq
      rw [heq, hfind] at hco
      cases hco
      rw [hown] at hoco
      cases hoco
    refine ⟨co, ?_, hoco⟩
    show assocFind (assocErase s.clients h) wobj.clientId = some co
    rw [assocFind_erase, if_neg hne]
    exact hco

theorem wf_destroy_sm {s : BridgeState} (w : WF s) {h : Nat}
    {obj : SMObj} (hfind : assocFind s.sms h = some obj)
    (hown : obj.owner = .external) :
    WF { s with
          sms := assocErase s.sms h,
          destroyed := h :: s.destroyed } := by
  refine ⟨w.clientsB, ?_, w.walletsB, ?_, ?_, w.disjCW, ?_, ?_, ?_, ?_,
          w.ownedC, ?_⟩
  · intro k hk
    replace hk : k ∈ keysOf (assocErase s.sms h) := hk
    exact w.smsB k ((keysOf_erase_sublist s.sms h).subset hk)
  · intro k hk
    replace hk : k ∈ h :: s.destroyed := hk
    rcases List.mem_cons.mp hk with heq | hk
    · subst heq
      exact w.smsB k (assocFind_mem_keys hfind)
    · exact w.destroyedB k hk
  · intro k hk hmem
    replace hmem : k ∈ keysOf (assocErase s.sms h) := hmem
    exact w.disjCS k hk ((keysOf_erase_sublist s.sms h).subset hmem)
  · intro k hk
    replace hk : k ∈ keysOf (assocErase s.sms h) := hk
    exact w.disjSW k ((keysOf_erase_sublist s.sms h).subset hk)
  · intro k hk
    replace hk : k ∈ h :: s.destroyed := hk
    rcases List.mem_cons.mp hk with heq | hk
    · subst heq
      have hks : k ∈ keysOf s.sms := assocFind_mem_keys hfind
      refine (assocFind_eq_none_iff s.clients k).mpr ?_
      intro hmem
      exact w.disjCS k hmem hks
    · exact w.deadC k hk
  · intro k hk
    replace hk : k ∈ h :: s.destroyed := hk
    show assocFind (assocErase s.sms h) k = none
    rw [assocFind_erase]
    rcases List.mem_cons.mp hk with heq | hk
    · simp [heq]
    · by_cases hkh : k = h
      · simp [hkh]
      · simp [hkh, w.deadS k hk]
  · intro k hk
    replace hk : k ∈ h :: s.destroyed := hk
    rcases List.mem_cons.mp hk with heq | hk
    · subst heq
      have hks : k ∈ keysOf s.sms := assocFind_mem_keys hfind
      exact (assocFind_eq_none_iff s.wallets k).mpr (w.disjSW k hks)
    · exact w.deadW k hk
  · intro wi wobj hw
    replace hw : assocFind s.wallets wi = some wobj := hw
    obtain ⟨so, hso, hoso⟩ := w.ownedS wi wobj hw
    have hne : wobj.smId ≠ h := by
      intro heq
      rw [heq, hfind] at hso
      cases hso
      rw [hown] at hoso
      cases hoso
    refine ⟨so, ?_, hoso⟩
    show assocFind (assocErase s.sms h) wobj.smId = some so
    rw [assocFind_erase, if_neg hne]
    exact hso

theorem wf_destroy_wallet {s : BridgeState} (w : WF s) {h : Nat}
    {obj : WalletObj} (hfind : assocFind s.wallets h = some obj) :
    WF { s with
          wallets := assocErase s.wallets h,
          clients := assocErase s.clients obj.clientId,
          sms := assocErase s.sms obj.smId,
          destroyed := h :: obj.clientId :: obj.smId :: s.destroyed } := by
  obtain ⟨co, hco, hoco⟩ := w.ownedC h obj hfind
  obtain ⟨so, hso, hoso⟩ := w.ownedS h obj hfind
  have hkw : h ∈ keysOf s.wallets := assocFind_mem_keys hfind
  have hkc : obj.clientId ∈ keysOf s.clients := assocFind_mem_keys hco
  have hks : obj.smId ∈ keysOf s.sms := assocFind_mem_keys hso
  have hwc : h ∉ keysOf s.clients := fun hmem => w.disjCW h hmem hkw
  have hws : h ∉ keysOf s.sms := fun hmem => w.disjSW h hmem hkw
  have hcs : obj.clientId ∉ keysOf s.sms := w.disjCS _ hkc
  have hcw : obj.clientId ∉ keysOf s.wallets := w.disjCW _ hkc
  have hsc : obj.smId ∉ keysOf s.clients := fun hmem => w.disjCS _ hmem hks
  have hsw : obj.smId ∉ keysOf s.wallets := w.disjSW _ hks
  refine ⟨?_, ?_, ?_, ?_, ?_, ?_, ?_, ?_, ?_, ?_, ?_, ?_⟩
  · intro k hk
    replace hk : k ∈ keysOf (assocErase s.clients obj.clientId) := hk
    exact w.clientsB k ((keysOf_erase_sublist _ _).subset hk)
  · intro k hk
    replace hk : k ∈ keysOf (assocErase s.sms obj.smId) := hk
    exact w.smsB k ((keysOf_erase_sublist _ _).subset hk)
  · intro k hk
    replace hk : k ∈ keysOf (assocErase s.wallets h) := hk
    exact w.walletsB k ((keysOf_erase_sublist _ _).subset hk)
  · intro k hk
    replace hk : k ∈ h :: obj.clientId :: obj.smId :: s.destroyed := hk
    rcases List.mem_cons.mp hk with heq | hk
    · subst heq
      exact w.walletsB k hkw
    rcases List.mem_cons.mp hk with heq | hk
    · subst heq
      exact w.clientsB _ hkc
    rcases List.mem_cons.mp hk with heq | hk
    · subst heq
      exact w.smsB _ hks
    exact w.destroyedB k hk
  · intro k hk hmem
    replace hk : k ∈ keysOf (assocErase s.clients obj.clientId) := hk
    replace hmem : k ∈ keysOf (assocErase s.sms obj.smId) := hmem
    exact w.disjCS k ((keysOf_erase_sublist _ _).subset hk)
      ((keysOf_erase_sublist _ _).subset hmem)
  · intro k hk hmem
    replace hk : k ∈ keysOf (assocErase s.clients obj.clientId) := hk
    replace hmem : k ∈ keysOf (assocErase s.wallets h) := hmem
    exact w.disjCW k ((keysOf_erase_sublist _ _).subset hk)
      ((keysOf_erase_sublist _ _).subset hmem)
  · intro k hk hmem
    replace hk : k ∈ keysOf (assocErase s.sms obj.smId) := hk
    replace hmem : k ∈ keysOf (assocErase s.wallets h) := hmem
    exact w.disjSW k ((keysOf_erase_sublist _ _).subset hk)
      ((keysOf_erase_sublist _ _).subset hmem)
  · intro k hk
    replace hk : k ∈ h :: obj.clientId :: obj.smId :: s.destroyed := hk
    show assocFind (assocErase s.clients obj.clientId) k = none
    rw [assocFind_erase]
    by_cases hk1 : k = obj.clientId
    · simp [hk1]
    rcases List.mem_cons.mp hk with heq | hk
    · subst heq
      simp [hk1, (assocFind_eq_none_iff s.clients _).mpr hwc]
    rcases List.mem_cons.mp hk with heq | hk
    · omega
    rcases List.mem_cons.mp hk with heq | hk
    · subst heq
      simp [hk1, (assocFind_eq_none_iff s.clients _).mpr hsc]
    · simp [hk1, w.deadC k hk]
  · intro k hk
    replace hk : k ∈ h :: obj.clientId :: obj.smId :: s.destroyed := hk
    show assocFind (assocErase s.sms obj.smId) k = none
    rw [assocFind_erase]
    by_cases hk1 : k = obj.smId
    · simp [hk1]
    rcases List.mem_cons.mp hk with heq | hk
    · subst heq
      simp [hk1, (assocFind_eq_none_iff s.sms _).mpr hws]
    rcases List.mem_cons.mp hk with heq | hk
    · subst heq
      simp [hk1, (assocFind_eq_none_iff s.sms _).mpr hcs]
    rcases List.mem_cons.mp hk with heq | hk
    · omega
    · simp [hk1, w.deadS k hk]
  · intro k hk
    replace hk : k ∈ h :: obj.clientId :: obj.smId :: s.destroyed := hk
    show assocFind (assocErase s.wallets h) k = none
    rw [assocFind_erase]
    by_cases hk1 : k = h
    · simp [hk1]
    rcases List.mem_cons.mp hk with heq | hk
    · omega
    rcases List.mem_cons.mp hk with heq | hk
    · subst heq
      simp [hk1, (assocFind_eq_none_iff s.wallets _).mpr hcw]
    rcases List.mem_cons.mp hk with heq | hk
    · subst heq
      simp [hk1, (assocFind_eq_none_iff s.wallets _).mpr hsw]
    · simp [hk1, w.deadW k hk]
  · intro wi wobj hw
    replace hw : assocFind (assocErase s.wallets h) wi = some wobj := hw
    rw [assocFind_erase] at hw
    by_cases hwh : wi = h
    · simp [hwh] at hw
    rw [if_neg hwh] at hw
    obtain ⟨co2, hco2, hoco2⟩ := w.ownedC wi wobj hw
    have hne : wobj.clientId ≠ obj.clientId := by
      intro heq
      rw [heq, hco] at hco2
      cases hco2
      rw [hoco] at hoco2
      cases hoco2
      exact hwh rfl
    refine ⟨co2, ?_, hoco2⟩
    show assocFind (assocErase s.clients obj.clientId) wobj.clientId = some co2
    rw [assocFind_erase, if_neg hne]
    exact hco2
  · intro wi wobj hw
    replace hw : assocFind (assocErase s.wallets h) wi = some wobj := hw
    rw [assocFind_erase] at hw
    by_cases hwh : wi = h
    · simp [hwh] at hw
    rw [if_neg hwh] at hw
    obtain ⟨so2, hso2, hoso2⟩ := w.ownedS wi wobj hw
    have hne : wobj.smId ≠ obj.smId := by
      intro heq
      rw [heq, hso] at hso2
      cases hso2
      rw [hoso] at hoso2
      cases hoso2
      exact hwh rfl
    refine ⟨so2, ?_, hoso2⟩
    show assocFind (assocErase s.sms obj.smId) wobj.smId = some so2
    rw [assocFind_erase, if_neg hne]
    exact hso2

/-- Every defined boundary step preserves the bridge-state invariant. -/
theorem step_WF {C : Core} {s s' : BridgeState} {a : Action} {o : Outcome}
    (w : WF s) (hs : step C s a = some (s', o)) : WF s' := by
  cases a with
  | create_client cfg =>
    cases hc : C.clientCreate cfg with
    | ok st =>
      simp only [step, hc, Option.some.injEq, Prod.mk.injEq] at hs
      obtain ⟨rfl, rfl⟩ := hs
      exact wf_create_client w _
    | error e =>
      simp only [step, hc, Option.some.injEq, Prod.mk.injEq] at hs
      obtain ⟨rfl, rfl⟩ := hs
      exact wf_set_lastError w _
  | destroy_client h =>
    cases h with
    | none =>
      simp only [step, Option.some.injEq, Prod.mk.injEq] at hs
      obtain ⟨rfl, rfl⟩ := hs
      exact wf_set_lastError w _
    | some h =>
      cases hf : assocFind s.clients h with
      | none => simp [step, hf] at hs
      | some obj =>
        cases ho : obj.owner with
        | external =>
          simp only [step, hf, ho, Option.some.injEq, Prod.mk.injEq] at hs
          obtain ⟨rfl, rfl⟩ := hs
          exact wf_destroy_client w hf ho
        | wallet wi => simp [step, hf, ho] at hs
  | call_client_method h m =>
    cases hf : assocFind s.clients h with
    | none => simp [step, hf] at hs
    | some obj =>
      cases hd : C.clientDispatch obj.core m with
      | ok p =>
        obtain ⟨res, st⟩ := p
        simp only [step, hf, hd, Option.some.injEq, Prod.mk.injEq] at hs
        obtain ⟨rfl, rfl⟩ := hs
        exact wf_update_clients w h _ (fun o => rfl)
      | error e =>
        simp only [step, hf, hd, Option.some.injEq, Prod.mk.injEq] at hs
        obtain ⟨rfl, rfl⟩ := hs
        exact wf_set_lastError w _
  | create_secret_manager cfg =>
    cases hc : C.smCreate cfg with
    | ok st =>
      simp only [step, hc, Option.some.injEq, Prod.mk.injEq] at hs
      obtain ⟨rfl, rfl⟩ := hs
      exact wf_create_sm w _
    | error e =>
      simp only [step, hc, Option.some.injEq, Prod.mk.injEq] at hs
      obtain ⟨rfl, rfl⟩ := hs
      exact wf_set_lastError w _
  | destroy_secret_manager h =>
    cases h with
    | none =>
      simp only [step, Option.some.injEq, Prod.mk.injEq] at hs
      obtain ⟨rfl, rfl⟩ := hs
      exact wf_set_lastError w _
    | some h =>
      cases hf : assocFind s.sms h with
      | none => simp [step, hf] at hs
      | some obj =>
        cases ho : obj.owner with
        | external =>
          simp only [step, hf, ho, Option.some.injEq, Prod.mk.injEq] at hs
          obtain ⟨rfl, rfl⟩ := hs
          exact wf_destroy_sm w hf ho
        | wallet wi => simp [step, hf, ho] at hs
  | call_secret_manager_method h m =>
    cases hf : assocFind s.sms h with
    | none => simp [step, hf] at hs
    | some obj =>
      cases hd : C.smDispatch obj.core m with
      | ok p =>
        obtain ⟨res, st⟩ := p
        simp only [step, hf, hd, Option.some.injEq, Prod.mk.injEq] at hs
        obtain ⟨rfl, rfl⟩ := hs
        exact wf_update_sms w h _ (fun o => rfl)
      | error e =>
        simp only [step, hf, hd, Option.some.injEq, Prod.mk.injEq] at hs
        obtain ⟨rfl, rfl⟩ := hs
        exact wf_set_lastError w _
  | create_wallet cfg =>
    cases hc : C.walletCreate cfg with
    | ok p =>
      obtain ⟨wst, cst, mst⟩ := p
      simp only [step, hc, Option.some.injEq, Prod.mk.injEq] at hs
      obtain ⟨rfl, rfl⟩ := hs
      exact wf_create_wallet w wst cst mst
    | error e =>
      simp only [step, hc, Option.some.injEq, Prod.mk.injEq] at hs
      obtain ⟨rfl, rfl⟩ := hs
      exact wf_set_lastError w _
  | destroy_wallet h =>
    cases h with
    | none =>
      simp only [step, Option.some.injEq, Prod.mk.injEq] at hs
      obtain ⟨rfl, rfl⟩ := hs
      exact wf_set_lastError w _
    | some h =>
      cases hf : assocFind s.wallets h with
      | none => simp [step, hf] at hs
      | some obj =>
        simp only [step, hf, Option.some.injEq, Prod.mk.injEq] at hs
        obtain ⟨rfl, rfl⟩ := hs
        exact wf_destroy_wallet w hf
  | call_wallet_method h m =>
    cases hf : assocFind s.wallets h with
    | none => simp [step, hf] at hs
    | some obj =>
      cases hd : C.walletDispatch obj.core m with
      | ok p =>
        obtain ⟨res, st⟩ := p
        simp only [step, hf, hd, Option.some.injEq, Prod.mk.injEq] at hs
        obtain ⟨rfl, rfl⟩ := hs
        exact wf_update_wallets w h _ (fun o => rfl) (fun o => rfl)
      | error e =>
        simp only [step, hf, hd, Option.some.injEq, Prod.mk.injEq] at hs
        obtain ⟨rfl, rfl⟩ := hs
        exact wf_set_lastError w _
  | listen_wallet h events cb =>
    cases hf : assocFind s.wallets h with
    | none => simp [step, hf] at hs
    | some obj =>
      cases hfc : C.filterCheck events with
      | ok u =>
        simp only [step, hf, hfc, Option.some.injEq, Prod.mk.injEq] at hs
        obtain ⟨rfl, rfl⟩ := hs
        exact wf_update_wallets w h _ (fun o => rfl) (fun o => rfl)
      | error e =>
        simp only [step, hf, hfc, Option.some.injEq, Prod.mk.injEq] at hs
        obtain ⟨rfl, rfl⟩ := hs
        exact wf_set_lastError w _
  | get_client_from_wallet h =>
    cases hf : assocFind s.wallets h with
    | none => simp [step, hf] at hs
    | some obj =>
      simp only [step, hf, Option.some.injEq, Prod.mk.injEq] at hs
      obtain ⟨rfl, rfl⟩ := hs
      exact w
  | get_secret_manager_from_wallet h =>
    cases hf : assocFind s.wallets h with
    | none => simp [step, hf] at hs
    | some obj =>
      simp only [step, hf, Option.some.injEq, Prod.mk.injEq] at hs
      obtain ⟨rfl, rfl⟩ := hs
      exact w
  | emit_event h payload =>
    cases hf : assocFind s.wallets h with
    | none => simp [step, hf] at hs
    | some obj =>
      simp only [step, hf, Option.some.injEq, Prod.mk.injEq] at hs
      obtain ⟨rfl, rfl⟩ := hs
      exact wf_update_wallets w h _ (fun o => rfl) (fun o => rfl)
  | deliver_event h =>
    cases hf : assocFind s.wallets h with
    | none => simp [step, hf] at hs
    | some obj =>
      cases hp : obj.pending with
      | nil => simp [step, hf, hp] at hs
      | cons q rest =>
        obtain ⟨cb, payload⟩ := q
        simp only [step, hf, hp, Option.some.injEq, Prod.mk.injEq] at hs
        obtain ⟨rfl, rfl⟩ := hs
        exact wf_update_wallets w h _ (fun o => rfl) (fun o => rfl)
  | binding_get_last_error =>
    simp only [step, Option.some.injEq, Prod.mk.injEq] at hs
    obtain ⟨rfl, rfl⟩ := hs
    exact w

/-- Running any action list preserves the invariant. -/
theorem run_WF {C : Core} {s s' : BridgeState} {acts : List Action}
    {t : List (Action × Outcome)} (w : WF s)
    (hr : run C s acts = some (s', t)) : WF s' := by
  induction acts generalizing s t with
  | nil =>
    simp only [run, Option.some.injEq, Prod.mk.injEq] at hr
    obtain ⟨rfl, rfl⟩ := hr
    exact w
  | cons a as ih =>
    simp only [run] at hr
    cases hstep : step C s a with
    | none => simp [hstep] at hr
    | some p =>
      obtain ⟨s1, o⟩ := p
      simp only [hstep] at hr
      cases hrun : run C s1 as with
      | none => simp [hrun] at hr
      | some q =>
        obtain ⟨s2, t2⟩ := q
        simp only [hrun, Option.some.injEq, Prod.mk.injEq] at hr
        obtain ⟨rfl, rfl⟩ := hr
        exact ih (step_WF w hstep) hrun

/-- The set of destroyed handle ids only grows. -/
theorem step_destroyed_mono {C : Core} {s s' : BridgeState} {a : Action}
    {o : Outcome} (hs : step C s a = some (s', o)) {k : Nat}
    (hk : k ∈ s.destroyed) : k ∈ s'.destroyed := by
  cases a with
  | create_client cfg =>
    cases hc : C.clientCreate cfg <;>
      simp only [step, hc, Option.some.injEq, Prod.mk.injEq] at hs <;>
      obtain ⟨rfl, rfl⟩ := hs <;> exact hk
  | destroy_client h =>
    cases h with
    | none =>
      simp only [step, Option.some.injEq, Prod.mk.injEq] at hs
      obtain ⟨rfl, rfl⟩ := hs
      exact hk
    | some h =>
      cases hf : assocFind s.clients h with
      | none => simp [step, hf] at hs
      | some obj =>
        cases ho : obj.owner with
        | external =>
          simp only [step, hf, ho, Option.some.injEq, Prod.mk.injEq] at hs
          obtain ⟨rfl, rfl⟩ := hs
          exact List.mem_cons_of_mem _ hk
        | wallet wi => simp [step, hf, ho] at hs
  | call_client_method h m =>
    cases hf : assocFind s.clients h with
    | none => simp [step, hf] at hs
    | some obj =>
      cases hd : C.clientDispatch obj.core m with
      | ok p =>
        obtain ⟨res, st⟩ := p
        simp only [step, hf, hd, Option.some.injEq, Prod.mk.injEq] at hs
        obtain ⟨rfl, rfl⟩ := hs
        exact hk
      | error e =>
        simp only [step, hf, hd, Option.some.injEq, Prod.mk.injEq] at hs
        obtain ⟨rfl, rfl⟩ := hs
        exact hk
  | create_secret_manager cfg =>
    cases hc : C.smCreate cfg <;>
      simp only [step, hc, Option.some.injEq, Prod.mk.injEq] at hs <;>
      obtain ⟨rfl, rfl⟩ := hs <;> exact hk
  | destroy_secret_manager h =>
    cases h with
    | none =>
      simp only [step, Option.some.injEq, Prod.mk.injEq] at hs
      obtain ⟨rfl, rfl⟩ := hs
      exact hk
    | some h =>
      cases hf : assocFind s.sms h with
      | none => simp [step, hf] at hs
      | some obj =>
        cases ho : obj.owner with
        | external =>
          simp only [step, hf, ho, Option.some.injEq, Prod.mk.injEq] at hs
          obtain ⟨rfl, rfl⟩ := hs
          exact List.mem_cons_of_mem _ hk
        | wallet wi => simp [step, hf, ho] at hs
  | call_secret_manager_method h m =>
    cases hf : assocFind s.sms h with
    | none => simp [step, hf] at hs
    | some obj =>
      cases hd : C.smDispatch obj.core m with
      | ok p =>
        obtain ⟨res, st⟩ := p
        simp only [step, hf, hd, Option.some.injEq, Prod.mk.injEq] at hs
        obtain ⟨rfl, rfl⟩ := hs
        exact hk
      | error e =>
        simp only [step, hf, hd, Option.some.injEq, Prod.mk.injEq] at hs
        obtain ⟨rfl, rfl⟩ := hs
        exact hk
  | create_wallet cfg =>
    cases hc : C.walletCreate cfg with
    | ok p =>
      obtain ⟨wst, cst, mst⟩ := p
      simp only [step, hc, Option.some.injEq, Prod.mk.injEq] at hs
      obtain ⟨rfl, rfl⟩ := hs
      exact hk
    | error e =>
      simp only [step, hc, Option.some.injEq, Prod.mk.injEq] at hs
      obtain ⟨rfl, rfl⟩ := hs
      exact hk
  | destroy_wallet h =>
    cases h with
    | none =>
      simp only [step, Option.some.injEq, Prod.mk.injEq] at hs
      obtain ⟨rfl, rfl⟩ := hs
      exact hk
    | some h =>
      cases hf : assocFind s.wallets h with
      | none => simp [step, hf] at hs
      | some obj =>
        simp only [step, hf, Option.some.injEq, Prod.mk.injEq] at hs
        obtain ⟨rfl, rfl⟩ := hs
        exact List.mem_cons_of_mem _
          (List.mem_cons_of_mem _ (List.mem_cons_of_mem _ hk))
  | call_wallet_method h m =>
    cases hf : assocFind s.wallets h with
    | none => simp [step, hf] at hs
    | some obj =>
      cases hd : C.walletDispatch obj.core m with
      | ok p =>
        obtain ⟨res, st⟩ := p
        simp only [step, hf, hd, Option.some.injEq, Prod.mk.injEq] at hs
        obtain ⟨rfl, rfl⟩ := hs
        exact hk
      | error e =>
        simp only [step, hf, hd, Option.some.injEq, Prod.mk.injEq] at hs
        obtain ⟨rfl, rfl⟩ := hs
        exact hk
  | listen_wallet h events cb =>
    cases hf : assocFind s.wallets h with
    | none => simp [step, hf] at hs
    | some obj =>
      cases hfc : C.filterCheck events <;>
        simp only [step, hf, hfc, Option.some.injEq, Prod.mk.injEq] at hs <;>
        obtain ⟨rfl, rfl⟩ := hs <;> exact hk
  | get_client_from_wallet h =>
    cases hf : assocFind s.wallets h with
    | none => simp [step, hf] at hs
    | some obj =>
      simp only [step, hf, Option.some.injEq, Prod.mk.injEq] at hs
      obtain ⟨rfl, rfl⟩ := hs
      exact hk
  | get_secret_manager_from_wallet h =>
    cases hf : assocFind s.wallets h with
    | none => simp [step, hf] at hs
    | some obj =>
      simp only [step, hf, Option.some.injEq, Prod.mk.injEq] at hs
      obtain ⟨rfl, rfl⟩ := hs
      exact hk
  | emit_event h payload =>
    cases hf : assocFind s.wallets h with
    | none => simp [step, hf] at hs
    | some obj =>
      simp only [step, hf, Option.some.injEq, Prod.mk.injEq] at hs
      obtain ⟨rfl, rfl⟩ := hs
      exact hk
  | deliver_event h =>
    cases hf : assocFind s.wallets h with
    | none => simp [step, hf] at hs
    | some obj =>
      cases hp : obj.pending with
      | nil => simp [step, hf, hp] at hs
      | cons q rest =>
        obtain ⟨cb, payload⟩ := q
        simp only [step, hf, hp, Option.some.injEq, Prod.mk.injEq] at hs
        obtain ⟨rfl, rfl⟩ := hs
        exact hk
  | binding_get_last_error =>
    simp only [step, Option.some.injEq, Prod.mk.injEq] at hs
    obtain ⟨rfl, rfl⟩ := hs
    exact hk

theorem run_destroyed_mono {C : Core} {s s' : BridgeState} {acts : List Action}
    {t : List (Action × Outcome)} (hr : run C s acts = some (s', t)) {k : Nat}
    (hk : k ∈ s.destroyed) : k ∈ s'.destroyed := by
  induction acts generalizing s t with
  | nil =>
    simp only [run, Option.some.injEq, Prod.mk.injEq] at hr
    obtain ⟨rfl, rfl⟩ := hr
    exact hk
  | cons a as ih =>
    simp only [run] at hr
    cases hstep : step C s a with
    | none => simp [hstep] at hr
    | some p =>
      obtain ⟨s1, o⟩ := p
      simp only [hstep] at hr
      cases hrun : run C s1 as with
      | none => simp [hrun] at hr
      | some q =>
        obtain ⟨s2, t2⟩ := q
        simp only [hrun, Option.some.injEq, Prod.mk.injEq] at hr
        obtain ⟨rfl, rfl⟩ := hr
        exact ih hrun (step_destroyed_mono hstep hk)

/-- Inversion of `run` on a cons. -/
theorem run_cons_some {C : Core} {s s2 : BridgeState} {a : Action}
    {as : List Action} {t : List (Action × Outcome)}
    (h : run C s (a :: as) = some (s2, t)) :
    ∃ s1 o t', step C s a = some (s1, o) ∧ run C s1 as = some (s2, t') ∧
      t = (a, o) :: t' := by
  simp only [run] at h
  cases hstep : step C s a with
  | none => simp [hstep] at h
  | some p =>
    obtain ⟨s1, o⟩ := p
    simp only [hstep] at h
    cases hrun : run C s1 as with
    | none => simp [hrun] at h
    | some q =>
      obtain ⟨s3, t3⟩ := q
      simp only [hrun, Option.some.injEq, Prod.mk.injEq] at h
      obtain ⟨rfl, rfl⟩ := h
      exact ⟨s1, o, t3, rfl, hrun, rfl⟩

/-- Inversion of `run` on an append. -/
theorem run_append_some {C : Core} {s s2 : BridgeState} {xs ys : List Action}
    {t : List (Action × Outcome)} (h : run C s (xs ++ ys) = some (s2, t)) :
    ∃ s1 t1 t2, run C s xs = some (s1, t1) ∧ run C s1 ys = some (s2, t2) ∧
      t = t1 ++ t2 := by
  induction xs generalizing s t with
  | nil => exact ⟨s, [], t, rfl, h, rfl⟩
  | cons a xs ih =>
    rw [List.cons_append] at h
    obtain ⟨s1, o, t', hstep, hrun, rfl⟩ := run_cons_some h
    obtain ⟨sm, t1, t2, h1, h2, h3⟩ := ih hrun
    refine ⟨sm, (a, o) :: t1, t2, ?_, h2, by simp [h3]⟩
    simp only [run, hstep, h1]

/-- Whether an action applies `destroy_*` to the given handle id. -/
def destroysH (h : Nat) : Action → Bool
  | .destroy_client (some h') => h' == h
  | .destroy_secret_manager (some h') => h' == h
  | .destroy_wallet (some h') => h' == h
  | _ => false

/-- Whether an action uses the given handle id: dispatching a method
on it, destroying it, registering a listener on it, reading a
sub-handle from it, or emitting/delivering an event through it. -/
def usesH (h : Nat) : Action → Bool
  | .call_client_method h' _ => h' == h
  | .call_secret_manager_method h' _ => h' == h
  | .call_wallet_method h' _ => h' == h
  | .destroy_client (some h') => h' == h
  | .destroy_secret_manager (some h') => h' == h
  | .destroy_wallet (some h') => h' == h
  | .listen_wallet h' _ _ => h' == h
  | .get_client_from_wallet h' => h' == h
  | .get_secret_manager_from_wallet h' => h' == h
  | .emit_event h' _ => h' == h
  | .deliver_event h' => h' == h
  | _ => false

/-- A defined `destroy_*` step records its handle id as destroyed. -/
theorem destroy_marks {C : Core} {s s' : BridgeState} {d : Action}
    {o : Outcome} {h : Nat} (hd : destroysH h d = true)
    (hs : step C s d = some (s', o)) : h ∈ s'.destroyed := by
  cases d <;> simp only [destroysH] at hd <;>
    try exact absurd hd (by decide)
  case destroy_client ho =>
    cases ho with
    | none => simp at hd
    | some h' =>
      have hh : h' = h := by simpa using hd
      subst hh
      cases hf : assocFind s.clients h' with
      | none => simp [step, hf] at hs
      | some obj =>
        cases hob : obj.owner with
        | external =>
          simp only [step, hf, hob, Option.some.injEq, Prod.mk.injEq] at hs
          obtain ⟨rfl, rfl⟩ := hs
          exact List.mem_cons_self _ _
        | wallet wi => simp [step, hf, hob] at hs
  case destroy_secret_manager ho =>
    cases ho with
    | none => simp at hd
    | some h' =>
      have hh : h' = h := by simpa using hd
      subst hh
      cases hf : assocFind s.sms h' with
      | none => simp [step, hf] at hs
      | some obj =>
        cases hob : obj.owner with
        | external =>
          simp only [step, hf, hob, Option.some.injEq, Prod.mk.injEq] at hs
          obtain ⟨rfl, rfl⟩ := hs
          exact List.mem_cons_self _ _
        | wallet wi => simp [step, hf, hob] at hs
  case destroy_wallet ho =>
    cases ho with
    | none => simp at hd
    | some h' =>
      have hh : h' = h := by simpa using hd
      subst hh
      cases hf : assocFind s.wallets h' with
      | none => simp [step, hf] at hs
      | some obj =>
        simp only [step, hf, Option.some.injEq, Prod.mk.injEq] at hs
        obtain ⟨rfl, rfl⟩ := hs
        exact List.mem_cons_self _ _

/-- In a well-formed state, no action can use a destroyed handle:
its step is undefined (a contract violation). -/
theorem dead_blocks {C : Core} {s : BridgeState} {a : Action} {h : Nat}
    (w : WF s) (hk : h ∈ s.destroyed) (ha : usesH h a = true) :
    step C s a = none := by
  cases a <;> simp only [usesH] at ha <;>
    try exact absurd ha (by decide)
  case call_client_method h' m =>
    have hh : h' = h := by simpa using ha
    subst hh
    simp [step, w.deadC h' hk]
  case call_secret_manager_method h' m =>
    have hh : h' = h := by simpa using ha
    subst hh
    simp [step, w.deadS h' hk]
  case call_wallet_method h' m =>
    have hh : h' = h := by simpa using ha
    subst hh
    simp [step, w.deadW h' hk]
  case destroy_client ho =>
    cases ho with
    | none => simp at ha
    | some h' =>
      have hh : h' = h := by simpa using ha
      subst hh
      simp [step, w.deadC h' hk]
  case destroy_secret_manager ho =>
    cases ho with
    | none => simp at ha
    | some h' =>
      have hh : h' = h := by simpa using ha
      subst hh
      simp [step, w.deadS h' hk]
  case destroy_wallet ho =>
    cases ho with
    | none => simp at ha
    | some h' =>
      have hh : h' = h := by simpa using ha
      subst hh
      simp [step, w.deadW h' hk]
  case listen_wallet h' events cb =>
    have hh : h' = h := by simpa using ha
    subst hh
    simp [step, w.deadW h' hk]
  case get_client_from_wallet h' =>
    have hh : h' = h := by simpa using ha
    subst hh
    simp [step, w.deadW h' hk]
  case get_secret_manager_from_wallet h' =>
    have hh : h' = h := by simpa using ha
    subst hh
    simp [step, w.deadW h' hk]
  case emit_event h' payload =>
    have hh : h' = h := by simpa using ha
    subst hh
    simp [step, w.deadW h' hk]
  case deliver_event h' =>
    have hh : h' = h := by simpa using ha
    subst hh
    simp [step, w.deadW h' hk]

/-- A concrete executable native-core oracle, used to evaluate the
contract theorems on concrete traces. -/
def testCore : Core where
  clientCreate cfg := if cfg = "bad" then .error "invalid client config" else .ok 0
  smCreate cfg := if cfg = "bad" then .error "invalid sm config" else .ok 0
  walletCreate cfg :=
    if cfg = "bad" then .error "invalid wallet config" else .ok (0, 0, 0)
  clientDispatch st m :=
    if m = "bad" then .error "unknown method" else .ok (m, st + 1)
  smDispatch st m :=
    if m = "bad" then .error "unknown method" else .ok (m, st + 1)
  walletDispatch st m :=
    if m = "bad" then .error "unknown method" else .ok (m, st + 1)
  filterCheck f := if f = "bad" then .error "invalid filter" else .ok ()
  matchesEv f p := f == "*" || f == p

theorem testCore_WF : CoreWF testCore := by
  constructor <;> (
    intros
    rename_i h
    revert h
    simp only [testCore]
    split <;> intro h <;>
      first
        | exact Except.noConfusion h
        | (injection h with h2
           subst h2
           decide))

/-- C1: for every handle kind, a handle is valid from its `create_*`
until the matching `destroy_*` consumes it, and in every valid trace
no `call_*_method`, second `destroy_*`, or any other use is ever
applied to a handle after its `destroy_*` has run: a trace containing
a destroy of `h` followed anywhere later by a use of `h` is not a
valid trace of the contract's step relation (the offending action has
no defined step), so use-after-destroy and double-destroy never occur
in reachable states. -/
theorem no_use_after_destroy (C : Core) (pre mid post : List Action)
    (d a : Action) (h : Nat) (hd : destroysH h d = true)
    (ha : usesH h a = true) :
    run C initState (pre ++ (d :: (mid ++ a :: post))) = none := by
  cases hr : run C initState (pre ++ (d :: (mid ++ a :: post))) with
  | none => rfl
  | some p =>
    exfalso
    obtain ⟨sf, t⟩ := p
    obtain ⟨s1, t1, t2, h1, h2, rfl⟩ := run_append_some hr
    obtain ⟨s2, o2, t3, hstep, hrun, rfl⟩ := run_cons_some h2
    have w1 : WF s1 := run_WF initState_WF h1
    have w2 : WF s2 := step_WF w1 hstep
    have hdead2 : h ∈ s2.destroyed := destroy_marks hd hstep
    obtain ⟨s3, t4, t5, h4, h5, rfl⟩ := run_append_some hrun
    have w3 : WF s3 := run_WF w2 h4
    have hdead3 : h ∈ s3.destroyed := run_destroyed_mono h4 hdead2
    obtain ⟨s4, o4, t6, hstep4, hrun4, rfl⟩ := run_cons_some h5
    rw [dead_blocks w3 hdead3 ha] at hstep4
    exact Option.noConfusion hstep4

/-- Concrete instance of C1: creating a client, destroying it, and
then dispatching a method on the stale handle is an invalid trace. -/
theorem no_use_after_destroy_witness :
    destroysH 0 (.destroy_client (some 0)) = true ∧
    usesH 0 (.call_client_method 0 "getInfo") = true ∧
    run testCore initState
      [.create_client "cfg", .destroy_client (some 0),
       .call_client_method 0 "getInfo"] = none :=
  ⟨by decide, by decide,
   no_use_after_destroy testCore [.create_client "cfg"] [] []
     (.destroy_client (some 0)) (.call_client_method 0 "getInfo") 0
     (by decide) (by decide)⟩

/-- Whether an action is a `call_*_method` dispatch. -/
def isDispatch : Action → Bool
  | .call_client_method _ _ => true
  | .call_secret_manager_method _ _ => true
  | .call_wallet_method _ _ => true
  | _ => false

/-- The state reached by a failing dispatch: only the Last-Error Slot
changed. -/
def errorOnly (s : BridgeState) (e : String) : BridgeState :=
  { s with lastError := some e }

/-- C2: whenever `call_client_method`, `call_secret_manager_method`
or `call_wallet_method` fails (the native core rejects the method
descriptor — malformed descriptor, unknown method, argument mismatch
or internal fault), the call returns null (`Outcome.str none`), the
Last-Error Slot holds a non-empty diagnostic, and nothing else in the
bridge state changed: the handle tables, and with them every handle's
externally observable state, are untouched (atomicity on error), and
no partial result string is produced. -/
theorem dispatch_failure_atomic (C : Core) (hC : CoreWF C)
    (s s' : BridgeState) (a : Action) (ha : isDispatch a = true)
    (hs : step C s a = some (s', .str none)) :
    ∃ e, e ≠ "" ∧ s' = errorOnly s e := by
  cases a <;> simp only [isDispatch] at ha <;>
    try exact absurd ha (by decide)
  case call_client_method h m =>
    cases hf : assocFind s.clients h with
    | none => simp [step, hf] at hs
    | some obj =>
      cases hd : C.clientDispatch obj.core m with
      | ok p =>
        obtain ⟨res, st⟩ := p
        simp [step, hf, hd] at hs
      | error e =>
        simp only [step, hf, hd, Option.some.injEq, Prod.mk.injEq] at hs
        obtain ⟨rfl, -⟩ := hs
        exact ⟨e, hC.clientDispatchErr _ _ _ hd, rfl⟩
  case call_secret_manager_method h m =>
    cases hf : assocFind s.sms h with
    | none => simp [step, hf] at hs
    | some obj =>
      cases hd : C.smDispatch obj.core m with
      | ok p =>
        obtain ⟨res, st⟩ := p
        simp [step, hf, hd] at hs
      | error e =>
        simp only [step, hf, hd, Option.some.injEq, Prod.mk.injEq] at hs
        obtain ⟨rfl, -⟩ := hs
        exact ⟨e, hC.smDispatchErr _ _ _ hd, rfl⟩
  case call_wallet_method h m =>
    cases hf : assocFind s.wallets h with
    | none => simp [step, hf] at hs
    | some obj =>
      cases hd : C.walletDispatch obj.core m with
      | ok p =>
        obtain ⟨res, st⟩ := p
        simp [step, hf, hd] at hs
      | error e =>
        simp only [step, hf, hd, Option.some.injEq, Prod.mk.injEq] at hs
        obtain ⟨rfl, -⟩ := hs
        exact ⟨e, hC.walletDispatchErr _ _ _ hd, rfl⟩

/-- A bridge state holding exactly one externally created Client. -/
def demoClientState : BridgeState :=
  { nextId := 1, clients := [(0, ⟨0, .external⟩)], sms := [], wallets := [],
    destroyed := [], lastError := none }

/-- Concrete instance of C2: dispatching the rejected method "bad" on
a live client returns null and changes only the Last-Error Slot. -/
theorem dispatch_failure_atomic_witness :
    CoreWF testCore ∧
    isDispatch (.call_client_method 0 "bad") = true ∧
    step testCore demoClientState (.call_client_method 0 "bad") =
      some (errorOnly demoClientState "unknown method", .str none) ∧
    ∃ e, e ≠ "" ∧
      errorOnly demoClientState "unknown method" = errorOnly demoClientState e :=
  ⟨testCore_WF, by decide, by decide,
   dispatch_failure_atomic testCore testCore_WF demoClientState
     (errorOnly demoClientState "unknown method") (.call_client_method 0 "bad")
     (by decide) (by decide)⟩

/-- The construction contract of `create_client` (spec §4.1): the
call always has a defined behaviour; on success it returns a fresh
non-null handle owning the newly constructed native object and does
not touch the Last-Error Slot; on failure it returns null, stores the
non-empty diagnostic in the Last-Error Slot and allocates nothing;
and it returns null exactly when the native construction failed. -/
def clientCreateContract (C : Core) (s : BridgeState) (cfg : String) : Prop :=
  ∃ s' o, step C s (.create_client cfg) = some (s', o) ∧
    ((∃ hid obj, o = .handle (some hid) ∧
        assocFind s'.clients hid = some obj ∧
        assocFind s.clients hid = none ∧
        C.clientCreate cfg = .ok obj.core ∧
        s'.lastError = s.lastError) ∨
      (∃ e, o = .handle none ∧ C.clientCreate cfg = .error e ∧ e ≠ "" ∧
        s'.lastError = some e ∧ s'.clients = s.clients ∧
        s'.nextId = s.nextId)) ∧
    ((o = .handle none) ↔ ∃ e, C.clientCreate cfg = .error e)

/-- The construction contract of `create_secret_manager`. -/
def smCreateContract (C : Core) (s : BridgeState) (cfg : String) : Prop :=
  ∃ s' o, step C s (.create_secret_manager cfg) = some (s', o) ∧
    ((∃ hid obj, o = .handle (some hid) ∧
        assocFind s'.sms hid = some obj ∧
        assocFind s.sms hid = none ∧
        C.smCreate cfg = .ok obj.core ∧
        s'.lastError = s.lastError) ∨
      (∃ e, o = .handle none ∧ C.smCreate cfg = .error e ∧ e ≠ "" ∧
        s'.lastError = some e ∧ s'.sms = s.sms ∧
        s'.nextId = s.nextId)) ∧
    ((o = .handle none) ↔ ∃ e, C.smCreate cfg = .error e)

/-- The construction contract of `create_wallet`. -/
def walletCreateContract (C : Core) (s : BridgeState) (cfg : String) : Prop :=
  ∃ s' o, step C s (.create_wallet cfg) = some (s', o) ∧
    ((∃ hid obj, o = .handle (some hid) ∧
        assocFind s'.wallets hid = some obj ∧
        assocFind s.wallets hid = none ∧
        (∃ wst cst mst, C.walletCreate cfg = .ok (wst, cst, mst) ∧
          obj.core = wst) ∧
        s'.lastError = s.lastError) ∨
      (∃ e, o = .handle none ∧ C.walletCreate cfg = .error e ∧ e ≠ "" ∧
        s'.lastError = some e ∧ s'.wallets = s.wallets ∧
        s'.nextId = s.nextId)) ∧
    ((o = .handle none) ↔ ∃ e, C.walletCreate cfg = .error e)

/-- C3: for every configuration string, each of `create_client`,
`create_secret_manager` and `create_wallet` either returns a
non-null fresh handle owning the newly constructed native object, or
returns null with the Last-Error Record set to the non-empty
construction diagnostic — and it returns null exactly when the
native-side construction (malformed configuration, invalid
credentials, resource exhaustion) failed. -/
theorem create_null_iff_failure (C : Core) (hC : CoreWF C) (s : BridgeState)
    (w : WF s) (cfg : String) :
    clientCreateContract C s cfg ∧ smCreateContract C s cfg ∧
      walletCreateContract C s cfg := by
  refine ⟨?_, ?_, ?_⟩
  · unfold clientCreateContract
    cases hc : C.clientCreate cfg with
    | ok st =>
      refine ⟨{ s with
                  nextId := s.nextId + 1,
                  clients := (s.nextId, ⟨st, .external⟩) :: s.clients },
              .handle (some s.nextId), by simp [step, hc],
              Or.inl ⟨s.nextId, ⟨st, .external⟩, rfl, ?_, ?_, rfl, rfl⟩,
              by simp⟩
      · show assocFind ((s.nextId, (⟨st, .external⟩ : ClientObj)) ::
          s.clients) s.nextId = _
        rw [assocFind_cons, if_pos rfl]
      · refine (assocFind_eq_none_iff _ _).mpr ?_
        intro hmem
        have := w.clientsB _ hmem
        omega
    | error e =>
      exact ⟨{ s with lastError := some e }, .handle none, by simp [step, hc],
             Or.inr ⟨e, rfl, rfl, hC.clientCreateErr cfg e hc, rfl, rfl, rfl⟩,
             by simp⟩
  · unfold smCreateContract
    cases hc : C.smCreate cfg with
    | ok st =>
      refine ⟨{ s with
                  nextId := s.nextId + 1,
                  sms := (s.nextId, ⟨st, .external⟩) :: s.sms },
              .handle (some s.nextId), by simp [step, hc],
              Or.inl ⟨s.nextId, ⟨st, .external⟩, rfl, ?_, ?_, rfl, rfl⟩,
              by simp⟩
      · show assocFind ((s.nextId, (⟨st, .external⟩ : SMObj)) ::
          s.sms) s.nextId = _
        rw [assocFind_cons, if_pos rfl]
      · refine (assocFind_eq_none_iff _ _).mpr ?_
        intro hmem
        have := w.smsB _ hmem
        omega
    | error e =>
      exact ⟨{ s with lastError := some e }, .handle none, by simp [step, hc],
             Or.inr ⟨e, rfl, rfl, hC.smCreateErr cfg e hc, rfl, rfl, rfl⟩,
             by simp⟩
  · unfold walletCreateContract
    cases hc : C.walletCreate cfg with
    | ok p =>
      obtain ⟨wst, cst, mst⟩ := p
      refine ⟨{ s with
                  nextId := s.nextId + 3,
                  clients :=
                    (s.nextId + 1, ⟨cst, .wallet s.nextId⟩) :: s.clients,
                  sms := (s.nextId + 2, ⟨mst, .wallet s.nextId⟩) :: s.sms,
                  wallets :=
                    (s.nextId, ⟨wst, s.nextId + 1, s.nextId + 2, [], []⟩) ::
                      s.wallets },
              .handle (some s.nextId), by simp [step, hc],
              Or.inl ⟨s.nextId, ⟨wst, s.nextId + 1, s.nextId + 2, [], []⟩,
                rfl, ?_, ?_, ⟨wst, cst, mst, rfl, rfl⟩, rfl⟩,
              by simp⟩
      · show assocFind ((s.nextId,
          (⟨wst, s.nextId + 1, s.nextId + 2, [], []⟩ : WalletObj)) ::
            s.wallets) s.nextId = _
        rw [assocFind_cons, if_pos rfl]
      · refine (assocFind_eq_none_iff _ _).mpr ?_
        intro hmem
        have := w.walletsB _ hmem
        omega
    | error e =>
      exact ⟨{ s with lastError := some e }, .handle none, by simp [step, hc],
             Or.inr ⟨e, rfl, rfl, hC.walletCreateErr cfg e hc, rfl, rfl, rfl⟩,
             by simp⟩

/-- Concrete instance of C3 at the initial state. -/
theorem create_null_iff_failure_witness :
    CoreWF testCore ∧ WF initState ∧
      (clientCreateContract testCore initState "x" ∧
        smCreateContract testCore initState "x" ∧
        walletCreateContract testCore initState "x") :=
  ⟨testCore_WF, initState_WF,
   create_null_iff_failure testCore testCore_WF initState initState_WF "x"⟩

/-- Modelled from the spec: `destroy_string` releases a
bridge-allocated outbound string (the implementation is not in the
shipped sources; the headers declare only the signature).  The heap
is the set of live bridge-allocated string ids.  It returns false for
a null input (and releases nothing) and true otherwise. -/
def destroy_string (ptr : Option Nat) (heap : List Nat) : Bool × List Nat :=
  match ptr with
  | none => (false, heap)
  | some p => (true, heap.erase p)

/-- C7: `destroy_client`, `destroy_secret_manager` and
`destroy_wallet` return false when the handle argument is null (and
destroy nothing — only the Last-Error Slot records the failure), and
`destroy_string` returns false for a null input and true otherwise. -/
theorem destroy_null_returns_false (C : Core) (s : BridgeState) (p : Nat)
    (heap : List Nat) :
    step C s (.destroy_client none) =
      some ({ s with lastError := some "null handle" }, .flag false) ∧
    step C s (.destroy_secret_manager none) =
      some ({ s with lastError := some "null handle" }, .flag false) ∧
    step C s (.destroy_wallet none) =
      some ({ s with lastError := some "null handle" }, .flag false) ∧
    destroy_string none heap = (false, heap) ∧
    (destroy_string (some p) heap).1 = true :=
  ⟨rfl, rfl, rfl, rfl, rfl⟩

/-- A bridge state holding exactly one Wallet (handle 0) owning a
Client (handle 1) and a SecretManager (handle 2), as produced by
`create_wallet` from the initial state. -/
def demoWalletState : BridgeState :=
  { nextId := 3, clients := [(1, ⟨0, .wallet 0⟩)], sms := [(2, ⟨0, .wallet 0⟩)],
    wallets := [(0, ⟨0, 1, 2, [], []⟩)], destroyed := [], lastError := none }

/-- C8: for every live Wallet handle, filter text and callback,
`listen_wallet` returns false exactly when registration itself fails
(the native core rejects the filter), recording the diagnostic and
registering nothing; and it returns true with the listener durably
registered in the same step — without waiting for any event to
occur (no event emission or delivery is involved in the step). -/
theorem listen_wallet_spec (C : Core) (s : BridgeState) (h cb : Nat)
    (events : String) (obj : WalletObj)
    (hf : assocFind s.wallets h = some obj) :
    (∀ e, C.filterCheck events = .error e →
      step C s (.listen_wallet h events cb) =
        some (errorOnly s e, .flag false)) ∧
    (∀ u, C.filterCheck events = .ok u →
      step C s (.listen_wallet h events cb) =
        some ({ s with
                  wallets := assocUpdate s.wallets h
                    (fun o =>
                      { o with listeners := o.listeners ++ [⟨events, cb⟩] }) },
              .flag true) ∧
      assocFind (assocUpdate s.wallets h
          (fun o => { o with listeners := o.listeners ++ [⟨events, cb⟩] })) h =
        some { obj with listeners := obj.listeners ++ [⟨events, cb⟩] }) := by
  constructor
  · intro e he
    simp [step, hf, he, errorOnly]
  · intro u hu
    constructor
    · simp only [step, hf, hu]
    · simp [assocFind_update, hf]

/-- Concrete instance of C8: registering a listener with a valid
filter on the demo wallet succeeds and stores the listener; the
rejected filter "bad" fails with a diagnostic. -/
theorem listen_wallet_spec_witness :
    assocFind demoWalletState.wallets 0 = some ⟨0, 1, 2, [], []⟩ ∧
    ((∀ e, testCore.filterCheck "evt" = .error e →
      step testCore demoWalletState (.listen_wallet 0 "evt" 5) =
        some (errorOnly demoWalletState e, .flag false)) ∧
    (∀ u, testCore.filterCheck "evt" = .ok u →
      step testCore demoWalletState (.listen_wallet 0 "evt" 5) =
        some ({ demoWalletState with
                  wallets := assocUpdate demoWalletState.wallets 0
                    (fun o =>
                      { o with listeners := o.listeners ++ [⟨"evt", 5⟩] }) },
              .flag true) ∧
      assocFind (assocUpdate demoWalletState.wallets 0
          (fun o => { o with listeners := o.listeners ++ [⟨"evt", 5⟩] })) 0 =
        some { core := 0, clientId := 1, smId := 2,
               listeners := [⟨"evt", 5⟩], pending := [] })) :=
  ⟨by decide,
   listen_wallet_spec testCore demoWalletState 0 5 "evt" ⟨0, 1, 2, [], []⟩
     (by decide)⟩

/-- Modelled from the spec: a boundary call whose inbound text
argument (`config_ptr`, `method_ptr`, `events`) is read out of a
caller-owned buffer heap.  The bridge reads the buffer's content for
the duration of the call and produces its step result; the caller's
heap is returned alongside so that its preservation is expressible. -/
def inboundCall (C : Core) (s : BridgeState) (heap : List (Nat × String))
    (buf : Nat) (mk : String → Action) :
    Option ((BridgeState × Outcome) × List (Nat × String)) :=
  match assocFind heap buf with
  | none => none
  | some content => (step C s (mk content)).map (fun r => (r, heap))

/-- C9: inbound strings are read-only for the duration of the call:
the caller's buffer heap comes back unchanged (nothing is modified or
freed), and the bridge's result depends only on the buffer's content,
never on its identity — so no reference to the buffer is retained
past call return (two calls reading the same content from different
buffers produce identical bridge results). -/
theorem inbound_strings_frame (C : Core) (s : BridgeState)
    (heap : List (Nat × String)) (buf : Nat) (mk : String → Action) :
    (∀ r h2, inboundCall C s heap buf mk = some (r, h2) → h2 = heap) ∧
    (∀ (heap2 : List (Nat × String)) (buf2 : Nat),
      assocFind heap buf = assocFind heap2 buf2 →
      (inboundCall C s heap buf mk).map (·.1) =
        (inboundCall C s heap2 buf2 mk).map (·.1)) := by
  constructor
  · intro r h2 hcall
    unfold inboundCall at hcall
    cases hfind : assocFind heap buf with
    | none => simp [hfind] at hcall
    | some content =>
      simp only [hfind] at hcall
      cases hstep : step C s (mk content) with
      | none => simp [hstep] at hcall
      | some q =>
        simp only [hstep, Option.map, Option.some.injEq,
          Prod.mk.injEq] at hcall
        exact hcall.2.symm
  · intro heap2 buf2 heq
    unfold inboundCall
    rw [← heq]
    cases hfind : assocFind heap buf with
    | none => simp
    | some content =>
      cases hstep : step C s (mk content) with
      | none => simp [hstep]
      | some q => simp [hstep]

/-- Concrete instance of C9: creating a client from a caller buffer
leaves the caller's heap exactly as it was. -/
theorem inbound_strings_frame_witness :
    inboundCall testCore initState [(7, "x")] 7 Action.create_client =
      some ((demoClientState, .handle (some 0)), [(7, "x")]) ∧
    ([(7, "x")] : List (Nat × String)) = [(7, "x")] :=
  ⟨by decide,
   (inbound_strings_frame testCore initState [(7, "x")] 7
       Action.create_client).1 (demoClientState, .handle (some 0)) [(7, "x")]
     (by decide)⟩

/-- Whether a boundary call failed: a null handle, false flag or
null result signals failure — except for `binding_get_last_error`,
which is not a fallible operation (its result merely reports the
slot, possibly empty). -/
def failedCall : Action → Outcome → Bool
  | .binding_get_last_error, _ => false
  | _, .handle none => true
  | _, .flag false => true
  | _, .str none => true
  | _, _ => false

/-- One step's effect on the Last-Error Slot: a failing call always
overwrites it with some message, and a successful call never touches
it. -/
theorem step_lastError_spec {C : Core} {s s' : BridgeState} {a : Action}
    {o : Outcome} (hs : step C s a = some (s', o)) :
    (failedCall a o = true → ∃ e, s'.lastError = some e) ∧
    (failedCall a o = false → s'.lastError = s.lastError) := by
  cases a with
  | create_client cfg =>
    cases hc : C.clientCreate cfg <;>
      simp only [step, hc, Option.some.injEq, Prod.mk.injEq] at hs <;>
      obtain ⟨rfl, rfl⟩ := hs
    · exact ⟨fun _ => ⟨_, rfl⟩, fun hc2 => by simp [failedCall] at hc2⟩
    · exact ⟨fun hc2 => by simp [failedCall] at hc2, fun _ => rfl⟩
  | destroy_client h =>
    cases h with
    | none =>
      simp only [step, Option.some.injEq, Prod.mk.injEq] at hs
      obtain ⟨rfl, rfl⟩ := hs
      exact ⟨fun _ => ⟨_, rfl⟩, fun hc2 => by simp [failedCall] at hc2⟩
    | some h =>
      cases hf : assocFind s.clients h with
      | none => simp [step, hf] at hs
      | some obj =>
        cases ho : obj.owner with
        | external =>
          simp only [step, hf, ho, Option.some.injEq, Prod.mk.injEq] at hs
          obtain ⟨rfl, rfl⟩ := hs
          exact ⟨fun hc2 => by simp [failedCall] at hc2, fun _ => rfl⟩
        | wallet wi => simp [step, hf, ho] at hs
  | call_client_method h m =>
    cases hf : assocFind s.clients h with
    | none => simp [step, hf] at hs
    | some obj =>
      cases hd : C.clientDispatch obj.core m with
      | ok p =>
        obtain ⟨res, st⟩ := p
        simp only [step, hf, hd, Option.some.injEq, Prod.mk.injEq] at hs
        obtain ⟨rfl, rfl⟩ := hs
        exact ⟨fun hc2 => by simp [failedCall] at hc2, fun _ => rfl⟩
      | error e =>
        simp only [step, hf, hd, Option.some.injEq, Prod.mk.injEq] at hs
        obtain ⟨rfl, rfl⟩ := hs
        exact ⟨fun _ => ⟨_, rfl⟩, fun hc2 => by simp [failedCall] at hc2⟩
  | create_secret_manager cfg =>
    cases hc : C.smCreate cfg <;>
      simp only [step, hc, Option.some.injEq, Prod.mk.injEq] at hs <;>
      obtain ⟨rfl, rfl⟩ := hs
    · exact ⟨fun _ => ⟨_, rfl⟩, fun hc2 => by simp [failedCall] at hc2⟩
    · exact ⟨fun hc2 => by simp [failedCall] at hc2, fun _ => rfl⟩
  | destroy_secret_manager h =>
    cases h with
    | none =>
      simp only [step, Option.some.injEq, Prod.mk.injEq] at hs
      obtain ⟨rfl, rfl⟩ := hs
      exact ⟨fun _ => ⟨_, rfl⟩, fun hc2 => by simp [failedCall] at hc2⟩
    | some h =>
      cases hf : assocFind s.sms h with
      | none => simp [step, hf] at hs
      | some obj =>
        cases ho : obj.owner with
        | external =>
          simp only [step, hf, ho, Option.some.injEq, Prod.mk.injEq] at hs
          obtain ⟨rfl, rfl⟩ := hs
          exact ⟨fun hc2 => by simp [failedCall] at hc2, fun _ => rfl⟩
        | wallet wi => simp [step, hf, ho] at hs
  | call_secret_manager_method h m =>
    cases hf : assocFind s.sms h with
    | none => simp [step, hf] at hs
    | some obj =>
      cases hd : C.smDispatch obj.core m with
      | ok p =>
        obtain ⟨res, st⟩ := p
        simp only [step, hf, hd, Option.some.injEq, Prod.mk.injEq] at hs
        obtain ⟨rfl, rfl⟩ := hs
        exact ⟨fun hc2 => by simp [failedCall] at hc2, fun _ => rfl⟩
      | error e =>
        simp only [step, hf, hd, Option.some.injEq, Prod.mk.injEq] at hs
        obtain ⟨rfl, rfl⟩ := hs
        exact ⟨fun _ => ⟨_, rfl⟩, fun hc2 => by simp [failedCall] at hc2⟩
  | create_wallet cfg =>
    cases hc : C.walletCreate cfg with
    | ok p =>
      obtain ⟨wst, cst, mst⟩ := p
      simp only [step, hc, Option.some.injEq, Prod.mk.injEq] at hs
      obtain ⟨rfl, rfl⟩ := hs
      exact ⟨fun hc2 => by simp [failedCall] at hc2, fun _ => rfl⟩
    | error e =>
      simp only [step, hc, Option.some.injEq, Prod.mk.injEq] at hs
      obtain ⟨rfl, rfl⟩ := hs
      exact ⟨fun _ => ⟨_, rfl⟩, fun hc2 => by simp [failedCall] at hc2⟩
  | destroy_wallet h =>
    cases h with
    | none =>
      simp only [step, Option.some.injEq, Prod.mk.injEq] at hs
      obtain ⟨rfl, rfl⟩ := hs
      exact ⟨fun _ => ⟨_, rfl⟩, fun hc2 => by simp [failedCall] at hc2⟩
    | some h =>
      cases hf : assocFind s.wallets h with
      | none => simp [step, hf] at hs
      | some obj =>
        simp only [step, hf, Option.some.injEq, Prod.mk.injEq] at hs
        obtain ⟨rfl, rfl⟩ := hs
        exact ⟨fun hc2 => by simp [failedCall] at hc2, fun _ => rfl⟩
  | call_wallet_method h m =>
    cases hf : assocFind s.wallets h with
    | none => simp [step, hf] at hs
    | some obj =>
      cases hd : C.walletDispatch obj.core m with
      | ok p =>
        obtain ⟨res, st⟩ := p
        simp only [step, hf, hd, Option.some.injEq, Prod.mk.injEq] at hs
        obtain ⟨rfl, rfl⟩ := hs
        exact ⟨fun hc2 => by simp [failedCall] at hc2, fun _ => rfl⟩
      | error e =>
        simp only [step, hf, hd, Option.some.injEq, Prod.mk.injEq] at hs
        obtain ⟨rfl, rfl⟩ := hs
        exact ⟨fun _ => ⟨_, rfl⟩, fun hc2 => by simp [failedCall] at hc2⟩
  | listen_wallet h events cb =>
    cases hf : assocFind s.wallets h with
    | none => simp [step, hf] at hs
    | some obj =>
      cases hfc : C.filterCheck events with
      | ok u =>
        simp only [step, hf, hfc, Option.some.injEq, Prod.mk.injEq] at hs
        obtain ⟨rfl, rfl⟩ := hs
        exact ⟨fun hc2 => by simp [failedCall] at hc2, fun _ => rfl⟩
      | error e =>
        simp only [step, hf, hfc, Option.some.injEq, Prod.mk.injEq] at hs
        obtain ⟨rfl, rfl⟩ := hs
        exact ⟨fun _ => ⟨_, rfl⟩, fun hc2 => by simp [failedCall] at hc2⟩
  | get_client_from_wallet h =>
    cases hf : assocFind s.wallets h with
    | none => simp [step, hf] at hs
    | some obj =>
      simp only [step, hf, Option.some.injEq, Prod.mk.injEq] at hs
      obtain ⟨rfl, rfl⟩ := hs
      exact ⟨fun hc2 => by simp [failedCall] at hc2, fun _ => rfl⟩
  | get_secret_manager_from_wallet h =>
    cases hf : assocFind s.wallets h with
    | none => simp [step, hf] at hs
    | some obj =>
      simp only [step, hf, Option.some.injEq, Prod.mk.injEq] at hs
      obtain ⟨rfl, rfl⟩ := hs
      exact ⟨fun hc2 => by simp [failedCall] at hc2, fun _ => rfl⟩
  | emit_event h payload =>
    cases hf : assocFind s.wallets h with
    | none => simp [step, hf] at hs
    | some obj =>
      simp only [step, hf, Option.some.injEq, Prod.mk.injEq] at hs
      obtain ⟨rfl, rfl⟩ := hs
      exact ⟨fun hc2 => by simp [failedCall] at hc2, fun _ => rfl⟩
  | deliver_event h =>
    cases hf : assocFind s.wallets h with
    | none => simp [step, hf] at hs
    | some obj =>
      cases hp : obj.pending with
      | nil => simp [step, hf, hp] at hs
      | cons q rest =>
        obtain ⟨cb, payload⟩ := q
        simp only [step, hf, hp, Option.some.injEq, Prod.mk.injEq] at hs
        obtain ⟨rfl, rfl⟩ := hs
        exact ⟨fun hc2 => by simp [failedCall] at hc2, fun _ => rfl⟩
  | binding_get_last_error =>
    simp only [step, Option.some.injEq, Prod.mk.injEq] at hs
    obtain ⟨rfl, rfl⟩ := hs
    exact ⟨fun hc2 => by simp [failedCall] at hc2, fun _ => rfl⟩

/-- A run containing no failing call leaves the Last-Error Slot
untouched. -/
theorem run_lastError_stable {C : Core} {s s' : BridgeState}
    {acts : List Action} {t : List (Action × Outcome)}
    (hr : run C s acts = some (s', t))
    (hsucc : ∀ p ∈ t, failedCall p.1 p.2 = false) :
    s'.lastError = s.lastError := by
  induction acts generalizing s t with
  | nil =>
    simp only [run, Option.some.injEq, Prod.mk.injEq] at hr
    obtain ⟨rfl, rfl⟩ := hr
    rfl
  | cons a as ih =>
    obtain ⟨s1, o, t', hstep, hrun, rfl⟩ := run_cons_some hr
    have h1 : failedCall a o = false :=
      hsucc (a, o) (List.mem_cons_self _ _)
    have h2 : ∀ p ∈ t', failedCall p.1 p.2 = false :=
      fun p hp => hsucc p (List.mem_cons_of_mem _ hp)
    rw [ih hrun h2, (step_lastError_spec hstep).2 h1]

/-- C4: the Last-Error Slot is overwritten on every failing call,
and is neither cleared by reading it through
`binding_get_last_error` nor cleared or modified by successful
calls: after a failing call A, any run of calls that all succeed
(call B among them, reads included) leaves the slot holding exactly
A's message, and reading it returns that message without changing
any state. -/
theorem last_error_persists (C : Core) (s s1 s2 : BridgeState) (a : Action)
    (o : Outcome) (acts : List Action) (t : List (Action × Outcome))
    (hA : step C s a = some (s1, o)) (hfail : failedCall a o = true)
    (hrun : run C s1 acts = some (s2, t))
    (hsucc : ∀ p ∈ t, failedCall p.1 p.2 = false) :
    (∃ e, s1.lastError = some e) ∧
    s2.lastError = s1.lastError ∧
    step C s2 .binding_get_last_error = some (s2, .str s2.lastError) :=
  ⟨(step_lastError_spec hA).1 hfail, run_lastError_stable hrun hsucc, rfl⟩

/-- Concrete instance of C4: a failing create (bad config) followed
by a successful create and a successful dispatch leaves the failing
call's message readable. -/
theorem last_error_persists_witness :
    step testCore initState (.create_client "bad") =
      some ({ initState with lastError := some "invalid client config" },
        .handle none) ∧
    failedCall (.create_client "bad") (.handle none) = true ∧
    run testCore { initState with lastError := some "invalid client config" }
        [.create_client "good", .call_client_method 0 "m"] =
      some ({ nextId := 1, clients := [(0, ⟨1, .external⟩)],
              sms := [], wallets := [], destroyed := [],
              lastError := some "invalid client config" },
        [(.create_client "good", .handle (some 0)),
         (.call_client_method 0 "m", .str (some "m"))]) ∧
    ((∃ e, ({ initState with
        lastError := some "invalid client config" } : BridgeState).lastError =
          some e) ∧
      ({ nextId := 1, clients := [(0, ⟨1, .external⟩)],
         sms := [], wallets := [], destroyed := [],
         lastError := some "invalid client config" } : BridgeState).lastError =
        ({ initState with
            lastError := some "invalid client config" } : BridgeState).lastError ∧
      step testCore
        { nextId := 1, clients := [(0, ⟨1, .external⟩)],
          sms := [], wallets := [], destroyed := [],
          lastError := some "invalid client config" }
        .binding_get_last_error =
        some ({ nextId := 1, clients := [(0, ⟨1, .external⟩)],
                sms := [], wallets := [], destroyed := [],
                lastError := some "invalid client config" },
          .str (some "invalid client config"))) :=
  ⟨by decide, by decide, by decide,
   last_error_persists testCore initState
     { initState with lastError := some "invalid client config" }
     { nextId := 1, clients := [(0, ⟨1, .external⟩)],
       sms := [], wallets := [], destroyed := [],
       lastError := some "invalid client config" }
     (.create_client "bad") (.handle none)
     [.create_client "good", .call_client_method 0 "m"]
     [(.create_client "good", .handle (some 0)),
      (.call_client_method 0 "m", .str (some "m"))]
     (by decide) (by decide) (by decide) (by decide)⟩

/-- C5: in every reachable state, a Wallet constructed from a plain
configuration exposes via `get_client_from_wallet` and
`get_secret_manager_from_wallet` exactly the ids of the Client and
SecretManager it owns — the same objects, with no duplication (the
accessor changes no state and allocates nothing) and no ownership
transfer (the borrowed handles cannot be destroyed independently:
such a destroy has no defined step).  The borrowed handles are live
as long as the wallet is live, and `destroy_wallet` also tears down
the wallet-owned Client and SecretManager, after which any use of the
borrowed handles is undefined. -/
theorem wallet_borrowed_handles (C : Core) (acts : List Action)
    (s : BridgeState) (t : List (Action × Outcome)) (w : Nat)
    (obj : WalletObj) (hreach : run C initState acts = some (s, t))
    (hw : assocFind s.wallets w = some obj) :
    step C s (.get_client_from_wallet w) =
      some (s, .handle (some obj.clientId)) ∧
    step C s (.get_secret_manager_from_wallet w) =
      some (s, .handle (some obj.smId)) ∧
    (∃ co, assocFind s.clients obj.clientId = some co ∧
      co.owner = .wallet w) ∧
    (∃ so, assocFind s.sms obj.smId = some so ∧ so.owner = .wallet w) ∧
    step C s (.destroy_client (some obj.clientId)) = none ∧
    step C s (.destroy_secret_manager (some obj.smId)) = none ∧
    ∃ s', step C s (.destroy_wallet (some w)) = some (s', .flag true) ∧
      assocFind s'.clients obj.clientId = none ∧
      assocFind s'.sms obj.smId = none ∧
      assocFind s'.wallets w = none ∧
      obj.clientId ∈ s'.destroyed ∧ obj.smId ∈ s'.destroyed ∧
      (∀ m, step C s' (.call_client_method obj.clientId m) = none) ∧
      (∀ m, step C s' (.call_secret_manager_method obj.smId m) = none) := by
  have wf : WF s := run_WF initState_WF hreach
  obtain ⟨co, hco, hoco⟩ := wf.ownedC w obj hw
  obtain ⟨so, hso, hoso⟩ := wf.ownedS w obj hw
  refine ⟨by simp [step, hw], by simp [step, hw], ⟨co, hco, hoco⟩,
    ⟨so, hso, hoso⟩, by simp [step, hco, hoco], by simp [step, hso, hoso],
    ?_⟩
  refine ⟨{ s with
              wallets := assocErase s.wallets w,
              clients := assocErase s.clients obj.clientId,
              sms := assocErase s.sms obj.smId,
              destroyed := w :: obj.clientId :: obj.smId :: s.destroyed },
          by simp [step, hw], ?_, ?_, ?_, ?_, ?_, ?_, ?_⟩
  · show assocFind (assocErase s.clients obj.clientId) obj.clientId = none
    rw [assocFind_erase, if_pos rfl]
  · show assocFind (assocErase s.sms obj.smId) obj.smId = none
    rw [assocFind_erase, if_pos rfl]
  · show assocFind (assocErase s.wallets w) w = none
    rw [assocFind_erase, if_pos rfl]
  · exact List.mem_cons_of_mem _ (List.mem_cons_self _ _)
  · exact List.mem_cons_of_mem _
      (List.mem_cons_of_mem _ (List.mem_cons_self _ _))
  · intro m
    have hdc : assocFind (assocErase s.clients obj.clientId) obj.clientId =
        none := by
      rw [assocFind_erase, if_pos rfl]
    simp [step, hdc]
  · intro m
    have hds : assocFind (assocErase s.sms obj.smId) obj.smId = none := by
      rw [assocFind_erase, if_pos rfl]
    simp [step, hds]

/-- Concrete instance of C5 on the wallet created by a single
`create_wallet` call: its owned Client is handle 1, its owned
SecretManager handle 2, and destroying wallet 0 invalidates both. -/
theorem wallet_borrowed_handles_witness :
    run testCore initState [.create_wallet "cfg"] =
      some (demoWalletState, [(.create_wallet "cfg", .handle (some 0))]) ∧
    assocFind demoWalletState.wallets 0 = some ⟨0, 1, 2, [], []⟩ ∧
    (step testCore demoWalletState (.get_client_from_wallet 0) =
      some (demoWalletState, .handle (some 1)) ∧
    step testCore demoWalletState (.get_secret_manager_from_wallet 0) =
      some (demoWalletState, .handle (some 2)) ∧
    (∃ co, assocFind demoWalletState.clients 1 = some co ∧
      co.owner = .wallet 0) ∧
    (∃ so, assocFind demoWalletState.sms 2 = some so ∧
      so.owner = .wallet 0) ∧
    step testCore demoWalletState (.destroy_client (some 1)) = none ∧
    step testCore demoWalletState (.destroy_secret_manager (some 2)) = none ∧
    ∃ s', step testCore demoWalletState (.destroy_wallet (some 0)) =
        some (s', .flag true) ∧
      assocFind s'.clients 1 = none ∧
      assocFind s'.sms 2 = none ∧
      assocFind s'.wallets 0 = none ∧
      1 ∈ s'.destroyed ∧ 2 ∈ s'.destroyed ∧
      (∀ m, step testCore s' (.call_client_method 1 m) = none) ∧
      (∀ m, step testCore s' (.call_secret_manager_method 2 m) = none)) :=
  ⟨by decide, by decide,
   wallet_borrowed_handles testCore [.create_wallet "cfg"] demoWalletState
     [(.create_wallet "cfg", .handle (some 0))] 0 ⟨0, 1, 2, [], []⟩
     (by decide) (by decide)⟩

/-- The callback invocations actually delivered for wallet `w` in a
trace, as (callback, payload) pairs in delivery order. -/
def deliveredTo (w : Nat) (t : List (Action × Outcome)) : List (Nat × String) :=
  t.filterMap fun p =>
    match p with
    | (.deliver_event w', .invoke cb pl) =>
      if w' = w then some (cb, pl) else none
    | _ => none

/-- The queue entries generated for a single listener `L` by the
events emitted on wallet `w` in a trace, in emission order. -/
def matchedTo (C : Core) (w : Nat) (L : Listener)
    (t : List (Action × Outcome)) : List (Nat × String) :=
  t.filterMap fun p =>
    match p with
    | (.emit_event w' pl, _) =>
      if w' = w ∧ C.matchesEv L.filter pl = true then some (L.cb, pl) else none
    | _ => none

/-- Whether an action is a `listen_wallet` call on wallet `w`. -/
def isListenOn (w : Nat) : Action → Bool
  | .listen_wallet w' _ _ => w' == w
  | _ => false

/-- No `listen_wallet` call on wallet `w` occurs in the action list
(the listener set of `w` stays fixed). -/
def noListen (w : Nat) : List Action → Bool
  | [] => true
  | a :: as => !(isListenOn w a) && noListen w as

/-- Whether an action emits or delivers an event on wallet `w`. -/
def touchesWallet (w : Nat) : Action → Bool
  | .emit_event w' _ => w' == w
  | .deliver_event w' => w' == w
  | _ => false

/-- Whether an action can change wallet `w`'s listener set or
delivery queue (or destroy the wallet). -/
def touchesQueue (w : Nat) : Action → Bool
  | .destroy_wallet (some w') => w' == w
  | .listen_wallet w' _ _ => w' == w
  | .emit_event w' _ => w' == w
  | .deliver_event w' => w' == w
  | _ => false

theorem touchesWallet_of_queue {w : Nat} {a : Action}
    (h : touchesQueue w a = false) : touchesWallet w a = false := by
  cases a <;> simp_all [touchesQueue, touchesWallet]

theorem usesH_of_touchesWallet {w : Nat} {a : Action}
    (h : touchesWallet w a = true) : usesH w a = true := by
  cases a <;> simp_all [touchesWallet, usesH]

/-- An action that neither emits nor delivers on `w` contributes
nothing to `w`'s delivered and matched sequences. -/
theorem trace_head_none (C : Core) (w : Nat) (L : Listener) {a : Action}
    (h : touchesWallet w a = false) (o : Outcome)
    (t : List (Action × Outcome)) :
    deliveredTo w ((a, o) :: t) = deliveredTo w t ∧
    matchedTo C w L ((a, o) :: t) = matchedTo C w L t := by
  cases a <;>
    simp_all [touchesWallet, deliveredTo, matchedTo, List.filterMap_cons]
  cases o <;> simp [h]

/-- A step that does not touch wallet `w`'s queue leaves `w` live
with the same listener set and the same pending queue (its opaque
core state may advance under `call_wallet_method`). -/
theorem step_wallet_entry_preserved {C : Core} {s s1 : BridgeState}
    {a : Action} {o : Outcome} {w : Nat} {obj : WalletObj} (wf : WF s)
    (hs : step C s a = some (s1, o)) (ht : touchesQueue w a = false)
    (hw : assocFind s.wallets w = some obj) :
    ∃ obj1, assocFind s1.wallets w = some obj1 ∧
      obj1.listeners = obj.listeners ∧ obj1.pending = obj.pending := by
  have hwlt : w < s.nextId := wf.walletsB w (assocFind_mem_keys hw)
  cases a with
  | create_client cfg =>
    cases hc : C.clientCreate cfg <;>
      simp only [step, hc, Option.some.injEq, Prod.mk.injEq] at hs <;>
      obtain ⟨rfl, rfl⟩ := hs <;> exact ⟨obj, hw, rfl, rfl⟩
  | destroy_client h =>
    cases h with
    | none =>
      simp only [step, Option.some.injEq, Prod.mk.injEq] at hs
      obtain ⟨rfl, rfl⟩ := hs
      exact ⟨obj, hw, rfl, rfl⟩
    | some h =>
      cases hf : assocFind s.clients h with
      | none => simp [step, hf] at hs
      | some cobj =>
        cases ho : cobj.owner with
        | external =>
          simp only [step, hf, ho, Option.some.injEq, Prod.mk.injEq] at hs
          obtain ⟨rfl, rfl⟩ := hs
          exact ⟨obj, hw, rfl, rfl⟩
        | wallet wi => simp [step, hf, ho] at hs
  | call_client_method h m =>
    cases hf : assocFind s.clients h with
    | none => simp [step, hf] at hs
    | some cobj =>
      cases hd : C.clientDispatch cobj.core m with
      | ok p =>
        obtain ⟨res, st⟩ := p
        simp only [step, hf, hd, Option.some.injEq, Prod.mk.injEq] at hs
        obtain ⟨rfl, rfl⟩ := hs
        exact ⟨obj, hw, rfl, rfl⟩
      | error e =>
        simp only [step, hf, hd, Option.some.injEq, Prod.mk.injEq] at hs
        obtain ⟨rfl, rfl⟩ := hs
        exact ⟨obj, hw, rfl, rfl⟩
  | create_secret_manager cfg =>
    cases hc : C.smCreate cfg <;>
      simp only [step, hc, Option.some.injEq, Prod.mk.injEq] at hs <;>
      obtain ⟨rfl, rfl⟩ := hs <;> exact ⟨obj, hw, rfl, rfl⟩
  | destroy_secret_manager h =>
    cases h with
    | none =>
      simp only [step, Option.some.injEq, Prod.mk.injEq] at hs
      obtain ⟨rfl, rfl⟩ := hs
      exact ⟨obj, hw, rfl, rfl⟩
    | some h =>
      cases hf : assocFind s.sms h with
      | none => simp [step, hf] at hs
      | some sobj =>
        cases ho : sobj.owner with
        | external =>
          simp only [step, hf, ho, Option.some.injEq, Prod.mk.injEq] at hs
          obtain ⟨rfl, rfl⟩ := hs
          exact ⟨obj, hw, rfl, rfl⟩
        | wallet wi => simp [step, hf, ho] at hs
  | call_secret_manager_method h m =>
    cases hf : assocFind s.sms h with
    | none => simp [step, hf] at hs
    | some sobj =>
      cases hd : C.smDispatch sobj.core m with
      | ok p =>
        obtain ⟨res, st⟩ := p
        simp only [step, hf, hd, Option.some.injEq, Prod.mk.injEq] at hs
        obtain ⟨rfl, rfl⟩ := hs
        exact ⟨obj, hw, rfl, rfl⟩
      | error e =>
        simp only [step, hf, hd, Option.some.injEq, Prod.mk.injEq] at hs
        obtain ⟨rfl, rfl⟩ := hs
        exact ⟨obj, hw, rfl, rfl⟩
  | create_wallet cfg =>
    cases hc : C.walletCreate cfg with
    | ok p =>
      obtain ⟨wst, cst, mst⟩ := p
      simp only [step, hc, Option.some.injEq, Prod.mk.injEq] at hs
      obtain ⟨rfl, rfl⟩ := hs
      refine ⟨obj, ?_, rfl, rfl⟩
      show assocFind ((s.nextId,
        (⟨wst, s.nextId + 1, s.nextId + 2, [], []⟩ : WalletObj)) ::
          s.wallets) w = some obj
      rw [assocFind_cons, if_neg (by omega)]
      exact hw
    | error e =>
      simp only [step, hc, Option.some.injEq, Prod.mk.injEq] at hs
      obtain ⟨rfl, rfl⟩ := hs
      exact ⟨obj, hw, rfl, rfl⟩
  | destroy_wallet h =>
    cases h with
    | none =>
      simp only [step, Option.some.injEq, Prod.mk.injEq] at hs
      obtain ⟨rfl, rfl⟩ := hs
      exact ⟨obj, hw, rfl, rfl⟩
    | some h =>
      have hne : ¬ w = h := by
        intro heq
        simp [touchesQueue, heq] at ht
      cases hf : assocFind s.wallets h with
      | none => simp [step, hf] at hs
      | some wobj =>
        simp only [step, hf, Option.some.injEq, Prod.mk.injEq] at hs
        obtain ⟨rfl, rfl⟩ := hs
        refine ⟨obj, ?_, rfl, rfl⟩
        show assocFind (assocErase s.wallets h) w = some obj
        rw [assocFind_erase, if_neg hne]
        exact hw
  | call_wallet_method h m =>
    cases hf : assocFind s.wallets h with
    | none => simp [step, hf] at hs
    | some wobj =>
      cases hd : C.walletDispatch wobj.core m with
      | ok p =>
        obtain ⟨res, st⟩ := p
        simp only [step, hf, hd, Option.some.injEq, Prod.mk.injEq] at hs
        obtain ⟨rfl, rfl⟩ := hs
        by_cases hwh : w = h
        · refine ⟨{ obj with core := st }, ?_, rfl, rfl⟩
          show assocFind (assocUpdate s.wallets h
            (fun o => { o with core := st })) w = _
          rw [assocFind_update, if_pos hwh, hw]
          rfl
        · refine ⟨obj, ?_, rfl, rfl⟩
          show assocFind (assocUpdate s.wallets h
            (fun o => { o with core := st })) w = some obj
          rw [assocFind_update, if_neg hwh]
          exact hw
      | error e =>
        simp only [step, hf, hd, Option.some.injEq, Prod.mk.injEq] at hs
        obtain ⟨rfl, rfl⟩ := hs
        exact ⟨obj, hw, rfl, rfl⟩
  | listen_wallet h events cb =>
    have hne : ¬ w = h := by
      intro heq
      simp [touchesQueue, heq] at ht
    cases hf : assocFind s.wallets h with
    | none => simp [step, hf] at hs
    | some wobj =>
      cases hfc : C.filterCheck events with
      | ok u =>
        simp only [step, hf, hfc, Option.some.injEq, Prod.mk.injEq] at hs
        obtain ⟨rfl, rfl⟩ := hs
        refine ⟨obj, ?_, rfl, rfl⟩
        show assocFind (assocUpdate s.wallets h
          (fun o => { o with listeners := o.listeners ++ [⟨events, cb⟩] })) w =
            some obj
        rw [assocFind_update, if_neg hne]
        exact hw
      | error e =>
        simp only [step, hf, hfc, Option.some.injEq, Prod.mk.injEq] at hs
        obtain ⟨rfl, rfl⟩ := hs
        exact ⟨obj, hw, rfl, rfl⟩
  | get_client_from_wallet h =>
    cases hf : assocFind s.wallets h with
    | none => simp [step, hf] at hs
    | some wobj =>
      simp only [step, hf, Option.some.injEq, Prod.mk.injEq] at hs
      obtain ⟨rfl, rfl⟩ := hs
      exact ⟨obj, hw, rfl, rfl⟩
  | get_secret_manager_from_wallet h =>
    cases hf : assocFind s.wallets h with
    | none => simp [step, hf] at hs
    | some wobj =>
      simp only [step, hf, Option.some.injEq, Prod.mk.injEq] at hs
      obtain ⟨rfl, rfl⟩ := hs
      exact ⟨obj, hw, rfl, rfl⟩
  | emit_event h payload =>
    have hne : ¬ w = h := by
      intro heq
      simp [touchesQueue, heq] at ht
    cases hf : assocFind s.wallets h with
    | none => simp [step, hf] at hs
    | some wobj =>
      simp only [step, hf, Option.some.injEq, Prod.mk.injEq] at hs
      obtain ⟨rfl, rfl⟩ := hs
      refine ⟨obj, ?_, rfl, rfl⟩
      show assocFind (assocUpdate s.wallets h
        (fun o => { o with pending :=
          o.pending ++ matchedDeliveries C o.listeners payload })) w =
          some obj
      rw [assocFind_update, if_neg hne]
      exact hw
  | deliver_event h =>
    have hne : ¬ w = h := by
      intro heq
      simp [touchesQueue, heq] at ht
    cases hf : assocFind s.wallets h with
    | none => simp [step, hf] at hs
    | some wobj =>
      cases hp : wobj.pending with
      | nil => simp [step, hf, hp] at hs
      | cons q rest =>
        obtain ⟨cb, payload⟩ := q
        simp only [step, hf, hp, Option.some.injEq, Prod.mk.injEq] at hs
        obtain ⟨rfl, rfl⟩ := hs
        refine ⟨obj, ?_, rfl, rfl⟩
        show assocFind (assocUpdate s.wallets h
          (fun o => { o with pending := rest })) w = some obj
        rw [assocFind_update, if_neg hne]
        exact hw
  | binding_get_last_error =>
    simp only [step, Option.some.injEq, Prod.mk.injEq] at hs
    obtain ⟨rfl, rfl⟩ := hs
    exact ⟨obj, hw, rfl, rfl⟩

/-- After a wallet is destroyed, a valid run can never again emit or
deliver events on it, and it never comes back to life. -/
theorem destroyed_no_events {C : Core} {s s' : BridgeState}
    {acts : List Action} {t : List (Action × Outcome)} {w : Nat}
    (wf : WF s) (hdead : w ∈ s.destroyed)
    (hr : run C s acts = some (s', t)) :
    (∀ p ∈ t, touchesWallet w p.1 = false) ∧
    assocFind s'.wallets w = none := by
  induction acts generalizing s t with
  | nil =>
    simp only [run, Option.some.injEq, Prod.mk.injEq] at hr
    obtain ⟨rfl, rfl⟩ := hr
    exact ⟨by simp, wf.deadW w hdead⟩
  | cons a as ih =>
    obtain ⟨s1, o, t', hstep, hrun, rfl⟩ := run_cons_some hr
    have hth : touchesWallet w a = false := by
      cases hta : touchesWallet w a with
      | false => rfl
      | true =>
        rw [dead_blocks wf hdead (usesH_of_touchesWallet hta)] at hstep
        exact Option.noConfusion hstep
    have wf1 : WF s1 := step_WF wf hstep
    have hdead1 : w ∈ s1.destroyed := step_destroyed_mono hstep hdead
    obtain ⟨h1, h2⟩ := ih wf1 hdead1 hrun
    refine ⟨?_, h2⟩
    intro p hp
    rcases List.mem_cons.mp hp with heq | hp
    · rw [heq]
      exact hth
    · exact h1 p hp

/-- A trace with no emissions or deliveries on `w` has empty
delivered and matched sequences for `w`. -/
theorem no_touches_no_deliveries (C : Core) (w : Nat) (L : Listener)
    {t : List (Action × Outcome)}
    (h : ∀ p ∈ t, touchesWallet w p.1 = false) :
    deliveredTo w t = [] ∧ matchedTo C w L t = [] := by
  induction t with
  | nil => exact ⟨rfl, rfl⟩
  | cons p t' ih =>
    obtain ⟨a, o⟩ := p
    have hh : touchesWallet w a = false := h (a, o) (List.mem_cons_self _ _)
    have ht' : ∀ q ∈ t', touchesWallet w q.1 = false :=
      fun q hq => h q (List.mem_cons_of_mem _ hq)
    obtain ⟨hD, hM⟩ := trace_head_none C w L hh o t'
    obtain ⟨ihD, ihM⟩ := ih ht'
    exact ⟨hD.trans ihD, hM.trans ihM⟩

/-- Inversion: the actions that can touch wallet `w`'s queue. -/
theorem touchesQueue_true_cases {w : Nat} {a : Action}
    (h : touchesQueue w a = true) :
    a = .destroy_wallet (some w) ∨ (∃ ev cb, a = .listen_wallet w ev cb) ∨
    (∃ pl, a = .emit_event w pl) ∨ a = .deliver_event w := by
  cases a with
  | destroy_wallet ho =>
    cases ho with
    | none => simp [touchesQueue] at h
    | some h2 =>
      have he : h2 = w := by simpa [touchesQueue] using h
      subst he
      exact Or.inl rfl
  | listen_wallet h2 ev cb =>
    have he : h2 = w := by simpa [touchesQueue] using h
    subst he
    exact Or.inr (Or.inl ⟨ev, cb, rfl⟩)
  | emit_event h2 pl =>
    have he : h2 = w := by simpa [touchesQueue] using h
    subst he
    exact Or.inr (Or.inr (Or.inl ⟨pl, rfl⟩))
  | deliver_event h2 =>
    have he : h2 = w := by simpa [touchesQueue] using h
    subst he
    exact Or.inr (Or.inr (Or.inr rfl))
  | create_client cfg => simp [touchesQueue] at h
  | destroy_client h2 => simp [touchesQueue] at h
  | call_client_method h2 m => simp [touchesQueue] at h
  | create_secret_manager cfg => simp [touchesQueue] at h
  | destroy_secret_manager h2 => simp [touchesQueue] at h
  | call_secret_manager_method h2 m => simp [touchesQueue] at h
  | create_wallet cfg => simp [touchesQueue] at h
  | call_wallet_method h2 m => simp [touchesQueue] at h
  | get_client_from_wallet h2 => simp [touchesQueue] at h
  | get_secret_manager_from_wallet h2 => simp [touchesQueue] at h
  | binding_get_last_error => simp [touchesQueue] at h

/-- The FIFO queue invariant for a wallet with a single fixed
listener: across any valid run, the queue entries its emissions have
generated equal the deliveries already made followed by the entries
still pending — deliveries happen in emission order, once each.  If
the wallet was destroyed during the run, the deliveries made form a
prefix of the generated entries (the rest were dropped, never
delivered out of order or twice). -/
theorem queue_invariant {C : Core} {s s' : BridgeState} {acts : List Action}
    {t : List (Action × Outcome)} {w : Nat} {L : Listener} {obj : WalletObj}
    (wf : WF s) (hr : run C s acts = some (s', t))
    (hw : assocFind s.wallets w = some obj) (hL : obj.listeners = [L])
    (hnl : noListen w acts = true) :
    (∀ obj', assocFind s'.wallets w = some obj' →
      obj'.listeners = [L] ∧
      obj.pending ++ matchedTo C w L t = deliveredTo w t ++ obj'.pending) ∧
    (assocFind s'.wallets w = none →
      ∃ rest, obj.pending ++ matchedTo C w L t = deliveredTo w t ++ rest) := by
  induction acts generalizing s t obj with
  | nil =>
    simp only [run, Option.some.injEq, Prod.mk.injEq] at hr
    obtain ⟨rfl, rfl⟩ := hr
    constructor
    · intro obj' hobj'
      rw [hw] at hobj'
      injection hobj' with h2
      subst h2
      simp [deliveredTo, matchedTo, hL]
    · intro hnone
      rw [hw] at hnone
      exact Option.noConfusion hnone
  | cons a as ih =>
    obtain ⟨s1, o, t', hstep, hrun, rfl⟩ := run_cons_some hr
    have wf1 : WF s1 := step_WF wf hstep
    have hnl2 : (!(isListenOn w a)) = true ∧ noListen w as = true := by
      simpa [noListen, Bool.and_eq_true] using hnl
    obtain ⟨hnlh, hnl'⟩ := hnl2
    by_cases htq : touchesQueue w a = true
    · rcases touchesQueue_true_cases htq with rfl | ⟨ev, cb, rfl⟩ | ⟨pl, rfl⟩ |
        rfl
      · -- destroy_wallet (some w): the queue dies with the wallet
        simp only [step, hw, Option.some.injEq, Prod.mk.injEq] at hstep
        obtain ⟨rfl, rfl⟩ := hstep
        have hdead1 : w ∈ (w :: obj.clientId :: obj.smId :: s.destroyed) :=
          List.mem_cons_self _ _
        obtain ⟨hnt, hend⟩ := destroyed_no_events wf1 hdead1 hrun
        obtain ⟨hD, hM⟩ := no_touches_no_deliveries C w L hnt
        constructor
        · intro obj' hobj'
          rw [hend] at hobj'
          exact Option.noConfusion hobj'
        · intro _
          refine ⟨obj.pending, ?_⟩
          have hntw : touchesWallet w (Action.destroy_wallet (some w)) =
              false := by
            simp [touchesWallet]
          obtain ⟨hDh, hMh⟩ := trace_head_none C w L hntw (.flag true) t'
          rw [hDh, hMh, hD, hM]
          simp
      · -- listen_wallet w: excluded by the fixed-listener hypothesis
        simp [isListenOn] at hnlh
      · -- emit_event w pl: the matching entry joins the queue
        simp only [step, hw, Option.some.injEq, Prod.mk.injEq] at hstep
        obtain ⟨rfl, rfl⟩ := hstep
        have hw1 : assocFind (assocUpdate s.wallets w
            (fun o => { o with pending :=
              o.pending ++ matchedDeliveries C o.listeners pl })) w =
            some { obj with pending :=
              obj.pending ++ matchedDeliveries C obj.listeners pl } := by
          rw [assocFind_update, if_pos rfl, hw]
          rfl
        obtain ⟨ihA, ihB⟩ := ih wf1 hrun hw1 hL hnl'
        have hmd : matchedDeliveries C obj.listeners pl =
            if C.matchesEv L.filter pl = true then [(L.cb, pl)] else [] := by
          rw [hL]
          by_cases hm : C.matchesEv L.filter pl = true <;>
            simp [matchedDeliveries, hm]
        have hMh : matchedTo C w L (((Action.emit_event w pl), .unit) :: t') =
            (if C.matchesEv L.filter pl = true then [(L.cb, pl)] else []) ++
              matchedTo C w L t' := by
          by_cases hm : C.matchesEv L.filter pl = true <;>
            simp [matchedTo, List.filterMap_cons, hm]
        have hDh : deliveredTo w (((Action.emit_event w pl), .unit) :: t') =
            deliveredTo w t' := by
          simp [deliveredTo, List.filterMap_cons]
        constructor
        · intro obj' hobj'
          obtain ⟨hls, heq⟩ := ihA obj' hobj'
          refine ⟨hls, ?_⟩
          rw [hMh, hDh, ← List.append_assoc, ← hmd]
          exact heq
        · intro hnone
          obtain ⟨rest, heq⟩ := ihB hnone
          refine ⟨rest, ?_⟩
          rw [hMh, hDh, ← List.append_assoc, ← hmd]
          exact heq
      · -- deliver_event w: the queue front is invoked
        cases hp : obj.pending with
        | nil => simp [step, hw, hp] at hstep
        | cons q rest =>
          obtain ⟨cb0, pl0⟩ := q
          simp only [step, hw, hp, Option.some.injEq, Prod.mk.injEq] at hstep
          obtain ⟨rfl, rfl⟩ := hstep
          have hw1 : assocFind (assocUpdate s.wallets w
              (fun o => { o with pending := rest })) w =
              some { obj with pending := rest } := by
            rw [assocFind_update, if_pos rfl, hw]
            rfl
          obtain ⟨ihA, ihB⟩ := ih wf1 hrun hw1 hL hnl'
          have hMh : matchedTo C w L
              (((Action.deliver_event w), .invoke cb0 pl0) :: t') =
              matchedTo C w L t' := by
            simp [matchedTo, List.filterMap_cons]
          have hDh : deliveredTo w
              (((Action.deliver_event w), .invoke cb0 pl0) :: t') =
              (cb0, pl0) :: deliveredTo w t' := by
            simp [deliveredTo, List.filterMap_cons]
          constructor
          · intro obj' hobj'
            obtain ⟨hls, heq⟩ := ihA obj' hobj'
            refine ⟨hls, ?_⟩
            rw [hMh, hDh]
            simp only [List.cons_append]
            simp [heq]
          · intro hnone
            obtain ⟨r2, heq⟩ := ihB hnone
            refine ⟨r2, ?_⟩
            rw [hMh, hDh]
            simp only [List.cons_append]
            simp [heq]
    · have htq' : touchesQueue w a = false := by
        simpa using htq
      obtain ⟨obj1, hw1, hls1, hpd1⟩ :=
        step_wallet_entry_preserved wf hstep htq' hw
      have hL1 : obj1.listeners = [L] := by rw [hls1, hL]
      obtain ⟨ihA, ihB⟩ := ih wf1 hrun hw1 hL1 hnl'
      obtain ⟨hDh, hMh⟩ := trace_head_none C w L
        (touchesWallet_of_queue htq') o t'
      constructor
      · intro obj' hobj'
        obtain ⟨hls, heq⟩ := ihA obj' hobj'
        refine ⟨hls, ?_⟩
        rw [hMh, hDh, ← hpd1]
        exact heq
      · intro hnone
        obtain ⟨rest, heq⟩ := ihB hnone
        refine ⟨rest, ?_⟩
        rw [hMh, hDh, ← hpd1]
        exact heq

/-- C6: for a Wallet with one listener registered via
`listen_wallet`, the callback is invoked once per matching emitted
event with the payloads in emission order: at any point of a valid
run the invocations made, followed by the entries still queued, are
exactly the matched emissions in order (so deliveries are in order,
once each, none skipped; if the wallet was destroyed mid-run the
deliveries made are a prefix of the matched emissions).  Moreover no
callback invocation for the Wallet ever occurs after its
`destroy_wallet` has begun: a valid trace contains no
`deliver_event` for it after the destroy.  Delivery interleaving
across different wallets is unconstrained by the model (the
`deliver_event` scheduling is arbitrary), so no cross-wallet
ordering is guaranteed. -/
theorem wallet_event_order (C : Core) (acts0 acts : List Action)
    (s s' : BridgeState) (t0 t : List (Action × Outcome)) (w : Nat)
    (obj : WalletObj) (L : Listener)
    (hreach : run C initState acts0 = some (s, t0))
    (hw : assocFind s.wallets w = some obj)
    (hL : obj.listeners = [L]) (hp0 : obj.pending = [])
    (hnl : noListen w acts = true)
    (hr : run C s acts = some (s', t)) :
    (∀ obj', assocFind s'.wallets w = some obj' →
      matchedTo C w L t = deliveredTo w t ++ obj'.pending) ∧
    (assocFind s'.wallets w = none →
      ∃ rest, matchedTo C w L t = deliveredTo w t ++ rest) ∧
    (∀ pre post, acts = pre ++ (.destroy_wallet (some w)) :: post →
      Action.deliver_event w ∉ post) := by
  have wf : WF s := run_WF initState_WF hreach
  obtain ⟨qA, qB⟩ := queue_invariant wf hr hw hL hnl
  refine ⟨?_, ?_, ?_⟩
  · intro obj' hobj'
    have := (qA obj' hobj').2
    rwa [hp0, List.nil_append] at this
  · intro hnone
    obtain ⟨rest, hrest⟩ := qB hnone
    rw [hp0, List.nil_append] at hrest
    exact ⟨rest, hrest⟩
  · intro pre post heq hmem
    obtain ⟨p1, p2, rfl⟩ := List.append_of_mem hmem
    rw [heq] at hr
    obtain ⟨sa, t1, t2, h1, h2, rfl⟩ := run_append_some hr
    obtain ⟨sb, ob, t3, hstepd, hrund, rfl⟩ := run_cons_some h2
    have wfa : WF sa := run_WF wf h1
    have wfb : WF sb := step_WF wfa hstepd
    have hdb : w ∈ sb.destroyed :=
      destroy_marks (by simp [destroysH]) hstepd
    obtain ⟨sc, t4, t5, h4, h5, rfl⟩ := run_append_some hrund
    have wfc : WF sc := run_WF wfb h4
    have hdc : w ∈ sc.destroyed := run_destroyed_mono h4 hdb
    obtain ⟨sd, od, t6, hstepe, hrune, rfl⟩ := run_cons_some h5
    rw [dead_blocks wfc hdc (by simp [usesH])] at hstepe
    exact Option.noConfusion hstepe

/-- The demo wallet with one listener (filter "*", callback 9)
registered and an empty queue. -/
def demoListenerState : BridgeState :=
  { nextId := 3, clients := [(1, ⟨0, .wallet 0⟩)], sms := [(2, ⟨0, .wallet 0⟩)],
    wallets := [(0, ⟨0, 1, 2, [⟨"*", 9⟩], []⟩)], destroyed := [],
    lastError := none }

/-- Concrete instance of C6: three events emitted on the demo wallet
are delivered to callback 9 in emission order, draining the queue. -/
theorem wallet_event_order_witness :
    run testCore initState [.create_wallet "w", .listen_wallet 0 "*" 9] =
      some (demoListenerState,
        [(.create_wallet "w", .handle (some 0)),
         (.listen_wallet 0 "*" 9, .flag true)]) ∧
    assocFind demoListenerState.wallets 0 =
      some ⟨0, 1, 2, [⟨"*", 9⟩], []⟩ ∧
    (⟨0, 1, 2, [⟨"*", 9⟩], []⟩ : WalletObj).listeners = [⟨"*", 9⟩] ∧
    (⟨0, 1, 2, [⟨"*", 9⟩], []⟩ : WalletObj).pending = [] ∧
    noListen 0 [.emit_event 0 "E1", .emit_event 0 "E2", .deliver_event 0,
      .emit_event 0 "E3", .deliver_event 0, .deliver_event 0] = true ∧
    run testCore demoListenerState
        [.emit_event 0 "E1", .emit_event 0 "E2", .deliver_event 0,
         .emit_event 0 "E3", .deliver_event 0, .deliver_event 0] =
      some (demoListenerState,
        [(.emit_event 0 "E1", .unit), (.emit_event 0 "E2", .unit),
         (.deliver_event 0, .invoke 9 "E1"), (.emit_event 0 "E3", .unit),
         (.deliver_event 0, .invoke 9 "E2"),
         (.deliver_event 0, .invoke 9 "E3")]) ∧
    ((∀ obj', assocFind demoListenerState.wallets 0 = some obj' →
      matchedTo testCore 0 ⟨"*", 9⟩
          [(.emit_event 0 "E1", .unit), (.emit_event 0 "E2", .unit),
           (.deliver_event 0, .invoke 9 "E1"), (.emit_event 0 "E3", .unit),
           (.deliver_event 0, .invoke 9 "E2"),
           (.deliver_event 0, .invoke 9 "E3")] =
        deliveredTo 0
          [(.emit_event 0 "E1", .unit), (.emit_event 0 "E2", .unit),
           (.deliver_event 0, .invoke 9 "E1"), (.emit_event 0 "E3", .unit),
           (.deliver_event 0, .invoke 9 "E2"),
           (.deliver_event 0, .invoke 9 "E3")] ++ obj'.pending) ∧
    (assocFind demoListenerState.wallets 0 = none →
      ∃ rest, matchedTo testCore 0 ⟨"*", 9⟩
          [(.emit_event 0 "E1", .unit), (.emit_event 0 "E2", .unit),
           (.deliver_event 0, .invoke 9 "E1"), (.emit_event 0 "E3", .unit),
           (.deliver_event 0, .invoke 9 "E2"),
           (.deliver_event 0, .invoke 9 "E3")] =
        deliveredTo 0
          [(.emit_event 0 "E1", .unit), (.emit_event 0 "E2", .unit),
           (.deliver_event 0, .invoke 9 "E1"), (.emit_event 0 "E3", .unit),
           (.deliver_event 0, .invoke 9 "E2"),
           (.deliver_event 0, .invoke 9 "E3")] ++ rest) ∧
    (∀ pre post,
      [Action.emit_event 0 "E1", .emit_event 0 "E2", .deliver_event 0,
        .emit_event 0 "E3", .deliver_event 0, .deliver_event 0] =
          pre ++ (.destroy_wallet (some 0)) :: post →
      Action.deliver_event 0 ∉ post)) :=
  ⟨by decide, by decide, by decide, by decide, by decide, by decide,
   wallet_event_order testCore [.create_wallet "w", .listen_wallet 0 "*" 9]
     [.emit_event 0 "E1", .emit_event 0 "E2", .deliver_event 0,
      .emit_event 0 "E3", .deliver_event 0, .deliver_event 0]
     demoListenerState demoListenerState
     [(.create_wallet "w", .handle (some 0)),
      (.listen_wallet 0 "*" 9, .flag true)]
     [(.emit_event 0 "E1", .unit), (.emit_event 0 "E2", .unit),
      (.deliver_event 0, .invoke 9 "E1"), (.emit_event 0 "E3", .unit),
      (.deliver_event 0, .invoke 9 "E2"), (.deliver_event 0, .invoke 9 "E3")]
     0 ⟨0, 1, 2, [⟨"*", 9⟩], []⟩ ⟨"*", 9⟩
     (by decide) (by decide) (by decide) (by decide) (by decide) (by decide)⟩

end IotaFFI
